import Mathlib

/-!
# netlinklib — verification of the message codec and transport engine

A shallow embedding, in Lean 4, of the parts of the `netlinklib` Python
library that the specification's claims are about:

* byte-level helpers and the `rtattr` packing (`pack_attr`,
  `NlaAttr.to_bytes` in `netlinklib/core.py`);
* the fixed-layout struct codec (`NllMsg` in `netlinklib/datatypes.py`);
* the TLV attribute walks (`parse_rtalist`, `_NlaNest.parse`);
* the route parser (`newroute_parser`, `parse_nhlist` in
  `netlinklib/parser_route.py`);
* the transport drivers (`_messages`, `_nll_send`, `nll_get_dump`,
  `nll_transact`, `nll_listen`, and the legacy drivers).

Bytes are modelled as `List Nat`, Python byte strings being sequences
of values `0 ≤ b < 256`.  Fallible code returns
explicit result types; loops whose progress depends on data are given
explicit fuel.

The struct layouts of `nlmsghdr`, `rtattr`, `rtmsg`, `rtnexthop` and
`ifinfomsg`, and the numeric kernel constants (`NLMSG_*`, `NLM_F_*`,
`RTA_*`, `RTM_*`, `ENODEV`) are produced at build time by the
`mknetlinkdefs` tool and are not part of the checked-in sources; they are
modelled from the specification (§3.1, §6.1, §6.3), which reproduces the
kernel headers.
-/

namespace Netlinklib

/-- Byte strings: a Python `bytes` value is a list of byte values. -/
abbrev Bytes := List Nat

/-- All entries of a byte string are actual bytes (`< 256`). -/
def isBytes (bs : Bytes) : Prop := ∀ b ∈ bs, b < 256

/-- Little-endian encoding of a natural number into `w` bytes
(the order `struct.pack` uses for the native formats on the x86 hosts
the library targets; `sys.byteorder == "little"`). -/
def natToLE : Nat → Nat → Bytes
  | 0, _ => []
  | w + 1, v => v % 256 :: natToLE w (v / 256)

/-- Little-endian decoding, the model of `int.from_bytes(data, "little")`. -/
def natFromLE : Bytes → Nat
  | [] => 0
  | b :: rest => b + 256 * natFromLE rest

/-- Big-endian decoding, the model of `int.from_bytes(data, "big")`. -/
def natFromBE (bs : Bytes) : Nat := natFromLE bs.reverse

/-- Python slicing `l[:i]` where `i` may be negative (negative indices
count from the end of the sequence). -/
def pyTake (i : Int) (l : Bytes) : Bytes :=
  if 0 ≤ i then l.take i.toNat else l.take (l.length - i.natAbs)

/-- Round up to the next multiple of 4: the source writes
`(n + 4 - 1) & ~(4 - 1)`, which on natural numbers equals
`(n + 3) / 4 * 4`. -/
def align4 (n : Nat) : Nat := (n + 3) / 4 * 4

/-- Python `bytes.ljust(n, b"\0")`. -/
def ljust (l : Bytes) (n : Nat) : Bytes := l ++ List.replicate (n - l.length) 0

/-- Modelled from the spec (§3.1, §6.1): `rtattr{len,type}` is packed with
format `"=HH"` — two 16-bit native-endian fields (the generated
`classes.py` is not in the sources).  `struct.pack` fails if a field does
not fit its width, hence the `Option`. -/
def rtattr_bytes (rta_len rta_type : Nat) : Option Bytes :=
  if rta_len < 65536 ∧ rta_type < 65536 then
    some (natToLE 2 rta_len ++ natToLE 2 rta_type)
  else none

/-- The function `pack_attr` from `netlinklib/core.py`:
`(rtattr(rta_len=4+len(val), rta_type=tag).bytes + val).ljust(align4, b"\0")`. -/
def pack_attr (tag : Nat) (val : Bytes) : Option Bytes :=
  let size := 2 + 2 + val.length
  let increment := align4 size
  (rtattr_bytes size tag).map (fun hdr => ljust (hdr ++ val) increment)

theorem natToLE_length (w v : Nat) : (natToLE w v).length = w := by
  induction w generalizing v with
  | zero => rfl
  | succ w ih => simp [natToLE, ih]

theorem natFromLE_natToLE (w v : Nat) (h : v < 256 ^ w) :
    natFromLE (natToLE w v) = v := by
  induction w generalizing v with
  | zero => simp [natToLE, natFromLE]; omega
  | succ w ih =>
    have hlt : v / 256 < 256 ^ w := by
      rw [Nat.div_lt_iff_lt_mul (by norm_num)]
      calc v < 256 ^ (w + 1) := h
        _ = 256 ^ w * 256 := by ring
    simp [natToLE, natFromLE, ih _ hlt]
    omega

theorem natToLE_isBytes (w v : Nat) : isBytes (natToLE w v) := by
  induction w generalizing v with
  | zero => intro b hb; simp [natToLE] at hb
  | succ w ih =>
    intro b hb
    simp [natToLE] at hb
    rcases hb with h | h
    · omega
    · exact ih _ _ h

theorem align4_ge (n : Nat) : n ≤ align4 n := by
  unfold align4; omega

theorem align4_mod (n : Nat) : align4 n % 4 = 0 := by
  unfold align4; omega

/-! ## Fixed-layout struct codec

Model of `NllMsg` (`netlinklib/datatypes.py`): a struct is described by an
ordered list of fields; each field is either a native-endian integer of a
given byte width and signedness (`struct` formats `b h i q B H I Q`) or an
inline array of unsigned bytes (format `{n}B`, as in the `priomap` array
of `tc_prio_qopt`).  Construction takes one optional value per slot:
a missing integer kwarg defaults to zero, a missing non-integer kwarg
raises `TypeError` (hence `Option`).  `struct.pack` rejects out-of-range
values, hence encoding is partial too. -/

/-- One field of a fixed-layout struct. -/
inductive FieldTy where
  | fint (width : Nat) (signed : Bool)
  | farr (count : Nat)
deriving DecidableEq

/-- A field value: a Python `int`, or the list of ints of an array field. -/
inductive FieldVal where
  | vint (v : Int)
  | varr (vs : List Nat)
deriving DecidableEq

/-- Whether `v` fits the range `struct.pack` accepts for the format of a
`width`-byte integer of the given signedness. -/
def intFits (width : Nat) (signed : Bool) (v : Int) : Bool :=
  if signed then
    decide (-(2 : Int) ^ (8 * width - 1) ≤ v ∧ v < 2 ^ (8 * width - 1))
  else
    decide (0 ≤ v ∧ v < 2 ^ (8 * width))

/-- Two's-complement little-endian encoding of an integer, the byte
string `struct.pack` emits for an in-range value. -/
def intToLE (w : Nat) (v : Int) : Bytes :=
  natToLE w (v % (2 : Int) ^ (8 * w)).toNat

/-- Decoding a `w`-byte native-endian integer the way `struct.unpack`
does: unsigned value, minus `2^(8w)` when the sign bit of a signed
format is set. -/
def intFromLE (signed : Bool) (w : Nat) (bs : Bytes) : Int :=
  if signed ∧ 2 ^ (8 * w - 1) ≤ natFromLE bs then
    (natFromLE bs : Int) - 2 ^ (8 * w)
  else (natFromLE bs : Int)

/-- Byte width a field occupies in the packed struct. -/
def fieldSize : FieldTy → Nat
  | .fint w _ => w
  | .farr n => n

/-- Pack one field (`struct.pack` fragment); fails on out-of-range or
ill-typed values. -/
def encodeField : FieldTy → FieldVal → Option Bytes
  | .fint w s, .vint v => if intFits w s v then some (intToLE w v) else none
  | .farr n, .varr vs =>
      if vs.length = n ∧ ∀ x ∈ vs, x < 256 then some vs else none
  | _, _ => none

/-- The model of `NllMsg.bytes`: pack all fields in order. -/
def encodeStruct : List FieldTy → List FieldVal → Option Bytes
  | [], [] => some []
  | t :: ts, v :: vs => do
      let b ← encodeField t v
      let rest ← encodeStruct ts vs
      pure (b ++ rest)
  | _, _ => none

/-- Unpack one field from its exact byte slice. -/
def parseField : FieldTy → Bytes → FieldVal
  | .fint w s, bs => .vint (intFromLE s w bs)
  | .farr _, bs => .varr bs

/-- The model of `NllMsg.from_bytes`: split the buffer by the field
widths and unpack each field. -/
def parseStruct : List FieldTy → Bytes → List FieldVal
  | [], _ => []
  | t :: ts, bs =>
      parseField t (bs.take (fieldSize t)) :: parseStruct ts (bs.drop (fieldSize t))

/-- One slot of `NllMsg.__init__`: a missing keyword value defaults to
zero for integer fields and is a `TypeError` for non-integer fields; a
supplied value is stored as given (the constructor does not type-check
it — `struct.pack` rejects ill-typed values later). -/
def constructField : FieldTy → Option FieldVal → Option FieldVal
  | .fint _ _, none => some (FieldVal.vint 0)
  | .farr _, none => none
  | _, some v => some v

/-- The model of `NllMsg.__init__` from keyword values: one optional
value per slot. -/
def construct : List FieldTy → List (Option FieldVal) → Option (List FieldVal)
  | [], [] => some []
  | t :: ts, a :: rest => do
      let v ← constructField t a
      let vs ← construct ts rest
      pure (v :: vs)
  | _, _ => none

/-- Every integer field of the layout is at least one byte wide (true of
every struct the library ships; rules out the degenerate zero-width
signed format). -/
def wfLayout (tys : List FieldTy) : Prop :=
  ∀ t ∈ tys, match t with
    | FieldTy.fint w _ => 1 ≤ w
    | FieldTy.farr _ => True

/-- Layout of `tc_prio_qopt` (`netlinklib/datatypes.py`): pack format
`"=i{TC_PRIO_MAX+1}B"` — one signed native 32-bit `bands` field followed
by the 16-byte `priomap` array (`TC_PRIO_MAX = 15` in the kernel
headers, per spec §3.1 the priomap has 16 elements). -/
def tc_prio_qopt_layout : List FieldTy := [.fint 4 true, .farr 16]

theorem pow256_eq (w : Nat) : (256 : Nat) ^ w = 2 ^ (8 * w) := by
  rw [show (256 : Nat) = 2 ^ 8 from by norm_num, ← pow_mul]

theorem intFromLE_intToLE (w : Nat) (s : Bool) (v : Int)
    (hw : 1 ≤ w) (h : intFits w s v = true) :
    intFromLE s w (intToLE w v) = v := by
  have hMpos : (0 : Int) < 2 ^ (8 * w) := by positivity
  have hHM : 2 * (2 : Int) ^ (8 * w - 1) = 2 ^ (8 * w) := by
    rw [← pow_succ']
    congr 1
    omega
  have hHpos : (0 : Int) < 2 ^ (8 * w - 1) := by positivity
  have hNpow : ((2 ^ (8 * w - 1) : Nat) : Int) = 2 ^ (8 * w - 1) := by
    push_cast; rfl
  have hNpow2 : ((2 ^ (8 * w) : Nat) : Int) = 2 ^ (8 * w) := by
    push_cast; rfl
  have hmod_nonneg : 0 ≤ v % (2 : Int) ^ (8 * w) :=
    Int.emod_nonneg v (ne_of_gt hMpos)
  have hmod_lt : v % (2 : Int) ^ (8 * w) < 2 ^ (8 * w) :=
    Int.emod_lt_of_pos v hMpos
  have hn : ((v % (2 : Int) ^ (8 * w)).toNat : Int) = v % (2 : Int) ^ (8 * w) :=
    Int.toNat_of_nonneg hmod_nonneg
  have hlt256 : (v % (2 : Int) ^ (8 * w)).toNat < 256 ^ w := by
    rw [pow256_eq]
    omega
  unfold intToLE intFromLE
  rw [natFromLE_natToLE _ _ hlt256]
  cases s with
  | false =>
    simp only [intFits, Bool.false_eq_true, if_false, decide_eq_true_eq] at h
    obtain ⟨h0, h1⟩ := h
    have hveq : v % (2 : Int) ^ (8 * w) = v := Int.emod_eq_of_lt h0 h1
    simp only [Bool.false_eq_true, false_and, if_false]
    rw [hn, hveq]
  | true =>
    simp only [intFits, if_true, decide_eq_true_eq] at h
    obtain ⟨h0, h1⟩ := h
    by_cases hv : 0 ≤ v
    · have hveq : v % (2 : Int) ^ (8 * w) = v :=
        Int.emod_eq_of_lt hv (by omega)
      rw [if_neg]
      · rw [hn, hveq]
      · rw [hveq]
        intro hcon
        omega
    · have hstep : (v + 2 ^ (8 * w)) % (2 : Int) ^ (8 * w)
          = v % (2 : Int) ^ (8 * w) := by
        have h2 := Int.add_mul_emod_self_left (a := v)
          (b := (2 : Int) ^ (8 * w)) (c := 1)
        rw [mul_one] at h2
        exact h2
      have hveq : v % (2 : Int) ^ (8 * w) = v + 2 ^ (8 * w) := by
        rw [← hstep, Int.emod_eq_of_lt (by omega) (by omega)]
      rw [if_pos]
      · rw [hn, hveq]
        omega
      · refine ⟨rfl, ?_⟩
        rw [hveq]
        omega

theorem encodeField_length (t : FieldTy) (v : FieldVal) (b : Bytes)
    (h : encodeField t v = some b) : b.length = fieldSize t := by
  cases t with
  | fint w s =>
    cases v with
    | vint x =>
      simp only [encodeField] at h
      split at h
      · cases h
        simp [fieldSize, intToLE, natToLE_length]
      · cases h
    | varr _ => simp [encodeField] at h
  | farr n =>
    cases v with
    | vint _ => simp [encodeField] at h
    | varr vs =>
      simp only [encodeField] at h
      split at h
      · cases h
        simp_all [fieldSize]
      · cases h

/-- C7: for every fixed-layout struct (all integer fields at least one
byte wide, as in all shipped structs) and every keyword assignment of
its fields — integer fields defaulting to zero when omitted, non-integer
fields supplied — parsing the bytes emitted for the constructed value
yields back exactly the constructed field values
(`parse ∘ encode ∘ construct` is the identity on fields). -/
theorem parse_encode_construct_id (tys : List FieldTy)
    (asn : List (Option FieldVal)) (vals : List FieldVal) (bs : Bytes)
    (hwf : wfLayout tys)
    (hc : construct tys asn = some vals)
    (he : encodeStruct tys vals = some bs) :
    parseStruct tys bs = vals := by
  induction tys generalizing asn vals bs with
  | nil =>
    cases asn with
    | nil =>
      simp only [construct] at hc
      cases hc
      simp [parseStruct]
    | cons a rest => simp [construct] at hc
  | cons t ts ih =>
    cases asn with
    | nil => simp [construct] at hc
    | cons a rest =>
      simp only [construct, Option.bind_eq_bind, Option.bind_eq_some] at hc
      obtain ⟨v, hv, vs, hvs, hcons⟩ := hc
      cases hcons
      simp only [encodeStruct, Option.bind_eq_bind, Option.bind_eq_some] at he
      obtain ⟨b, hb, brest, hbrest, hbs⟩ := he
      cases hbs
      have hblen := encodeField_length t v b hb
      have htake : (b ++ brest).take (fieldSize t) = b :=
        List.take_left' hblen
      have hdrop : (b ++ brest).drop (fieldSize t) = brest :=
        List.drop_left' hblen
      simp only [parseStruct, htake, hdrop]
      congr 1
      · cases t with
        | fint w s =>
          cases v with
          | vint x =>
            simp only [encodeField] at hb
            split at hb
            · cases hb
              simp only [parseField]
              rw [intFromLE_intToLE w s x
                (hwf (FieldTy.fint w s) (List.mem_cons_self _ _)) (by assumption)]
            · cases hb
          | varr _ => simp [encodeField] at hb
        | farr n =>
          cases v with
          | vint _ => simp [encodeField] at hb
          | varr vs' =>
            simp only [encodeField] at hb
            split at hb
            · cases hb
              simp [parseField]
            · cases hb
      · exact ih rest vs brest (fun x hx => hwf x (by simp [hx])) hvs hbrest

/-- Witness for C7: a concrete `tc_prio_qopt` — `bands = 3` supplied,
`priomap` supplied as sixteen bytes — encodes and parses back to the
same field values. -/
theorem parse_encode_construct_id_witness :
    parseStruct tc_prio_qopt_layout
      ([3, 0, 0, 0] ++ [1, 2, 2, 2, 1, 2, 0, 0, 1, 1, 1, 1, 1, 1, 1, 1])
      = [FieldVal.vint 3,
         FieldVal.varr [1, 2, 2, 2, 1, 2, 0, 0, 1, 1, 1, 1, 1, 1, 1, 1]] :=
  parse_encode_construct_id tc_prio_qopt_layout
    [some (FieldVal.vint 3),
     some (FieldVal.varr [1, 2, 2, 2, 1, 2, 0, 0, 1, 1, 1, 1, 1, 1, 1, 1])]
    _ _ (by intro t ht; fin_cases ht <;> simp) (by decide) (by decide)

/-! ## TLV attribute walks

Models of `parse_rtalist` (`netlinklib/core.py`) and of the
TLV-collection loop at the top of `_NlaNest.parse`.  Both read an
`rtattr` header off the front of the buffer (raising `NllError` when
fewer than four bytes remain, from the `struct.error` of `unpack`) and
advance by `(rta_len + 3) & ~3`; an attribute with `rta_len = 0` makes
no progress, so the loops take explicit fuel and report exhaustion. -/

/-- Outcome of running a Python fragment that can raise `NllError`
(`err`) or loop forever (`hang`, reported on fuel exhaustion). -/
inductive Res (A : Type) where
  | ok : A → Res A
  | err : Res A
  | hang : Res A
deriving DecidableEq

/-- The `rta_len` field of the attribute at the head of the buffer
(16-bit native). -/
def rtaLen (data : Bytes) : Nat := natFromLE (data.take 2)

/-- The `rta_type` field of the attribute at the head of the buffer. -/
def rtaType (data : Bytes) : Nat := natFromLE ((data.drop 2).take 2)

/-- The attribute payload `rta.remainder[: rta.rta_len - rtattr.SIZE]`
(Python slicing: a negative stop counts from the end). -/
def rtaPayload (data : Bytes) : Bytes :=
  pyTake ((rtaLen data : Int) - 4) (data.drop 4)

/-- The model of `parse_rtalist`: walk the TLV sequence, apply the
selected accumulating op (which may itself fail or diverge) for each
known `rta_type`. -/
def parse_rtalistR {A : Type} (sel : Nat → Option (A → Bytes → Res A)) :
    Nat → A → Bytes → Res A
  | 0, _, _ => .hang
  | _ + 1, accum, [] => .ok accum
  | fuel + 1, accum, data =>
    if data.length < 4 then .err
    else
      let rest := data.drop (align4 (rtaLen data))
      match sel (rtaType data) with
      | none => parse_rtalistR sel fuel accum rest
      | some op =>
        match op accum (rtaPayload data) with
        | .ok a => parse_rtalistR sel fuel a rest
        | .err => .err
        | .hang => .hang

/-- Lift a table of pure accumulating functions (such as `to_int`,
`to_str`, `to_ipaddr`) into the fallible op type. -/
def liftSel {A : Type} (sel : Nat → Option (A → Bytes → A)) :
    Nat → Option (A → Bytes → Res A) :=
  fun t => (sel t).map (fun op a b => Res.ok (op a b))

/-- Python dict assignment `d[k] = v` on an insertion-ordered
association list: update in place when the key is present, append
otherwise. -/
def dset {K V : Type} [DecidableEq K] (d : List (K × V)) (k : K) (v : V) :
    List (K × V) :=
  match d with
  | [] => [(k, v)]
  | (k', v') :: rest =>
    if k' = k then (k', v) :: rest else (k', v') :: dset rest k v

/-- Python `d.get(k)` / `d[k]` lookup. -/
def dlookup {K V : Type} [DecidableEq K] (d : List (K × V)) (k : K) :
    Option V :=
  match d with
  | [] => none
  | (k', v') :: rest => if k' = k then some v' else dlookup rest k

/-- The removal part of Python `d.pop(k, None)`. -/
def dremove {K V : Type} [DecidableEq K] (d : List (K × V)) (k : K) :
    List (K × V) :=
  match d with
  | [] => []
  | (k', v') :: rest => if k' = k then rest else (k', v') :: dremove rest k

/-- Python `{**d1, **d2}`: keys of `d1` first, values from `d2` winning
on collision, new keys of `d2` appended in order. -/
def dmerge {K V : Type} [DecidableEq K] (d1 d2 : List (K × V)) :
    List (K × V) :=
  d2.foldl (fun d kv => dset d kv.1 kv.2) d1

/-- The TLV-collection loop of `_NlaNest.parse`: walk the buffer and
record `attrs[rta_type] = payload` (a later duplicate tag overwrites an
earlier one). -/
def collectAttrs : Nat → List (Nat × Bytes) → Bytes → Res (List (Nat × Bytes))
  | 0, _, _ => .hang
  | _ + 1, attrs, [] => .ok attrs
  | fuel + 1, attrs, data =>
    if data.length < 4 then .err
    else
      collectAttrs fuel (dset attrs (rtaType data) (rtaPayload data))
        (data.drop (align4 (rtaLen data)))

/-- Every `rtattr` header encountered during the TLV walk over this
buffer has `rta_len ≥ 1` (the walk may still end at a short header,
which the source turns into `NllError`). -/
inductive WfWalk : Bytes → Prop where
  | nil : WfWalk []
  | short : ∀ d, d ≠ [] → d.length < 4 → WfWalk d
  | step : ∀ d, ¬ d.length < 4 → 1 ≤ rtaLen d →
      WfWalk (d.drop (align4 (rtaLen d))) → WfWalk d

theorem rtalist_shrink (data : Bytes) (hne : data ≠ [])
    (hlen : 1 ≤ rtaLen data) :
    (data.drop (align4 (rtaLen data))).length < data.length := by
  have h4 : 4 ≤ align4 (rtaLen data) := by
    unfold align4
    omega
  have hpos : 0 < data.length := List.length_pos.mpr hne
  simp only [List.length_drop]
  omega

theorem parse_rtalistR_wf_no_hang {A : Type}
    (sel : Nat → Option (A → Bytes → A)) (data : Bytes) (hwf : WfWalk data) :
    ∀ fuel, data.length < fuel → ∀ accum,
      parse_rtalistR (liftSel sel) fuel accum data ≠ Res.hang := by
  induction hwf with
  | nil =>
    intro fuel hfuel accum
    match fuel, hfuel with
    | f + 1, _ => simp [parse_rtalistR]
  | short d hne hshort =>
    intro fuel hfuel accum
    match fuel, hfuel with
    | f + 1, _ =>
      match d, hne with
      | x :: xs, _ =>
        simp only [parse_rtalistR, if_pos hshort]
        intro hcon
        cases hcon
  | step d hlong hlen hrest ih =>
    intro fuel hfuel accum
    match fuel, hfuel with
    | f + 1, _ =>
      have hne : d ≠ [] := by
        intro hd
        rw [hd] at hlong
        simp at hlong
      have hshrink := rtalist_shrink d hne hlen
      have hfr : (d.drop (align4 (rtaLen d))).length < f := by omega
      match d, hne with
      | x :: xs, _ =>
        simp only [parse_rtalistR, if_neg hlong]
        match hs : sel (rtaType (x :: xs)) with
        | none => simp only [liftSel, hs, Option.map_none]; exact ih f hfr accum
        | some op =>
          simp only [liftSel, hs, Option.map_some]
          exact ih f hfr (op accum (rtaPayload (x :: xs)))

theorem collectAttrs_wf_no_hang (data : Bytes) (hwf : WfWalk data) :
    ∀ fuel, data.length < fuel → ∀ attrs,
      collectAttrs fuel attrs data ≠ Res.hang := by
  induction hwf with
  | nil =>
    intro fuel hfuel attrs
    match fuel, hfuel with
    | f + 1, _ => simp [collectAttrs]
  | short d hne hshort =>
    intro fuel hfuel attrs
    match fuel, hfuel with
    | f + 1, _ =>
      match d, hne with
      | x :: xs, _ =>
        simp only [collectAttrs, if_pos hshort]
        intro hcon
        cases hcon
  | step d hlong hlen hrest ih =>
    intro fuel hfuel attrs
    match fuel, hfuel with
    | f + 1, _ =>
      have hne : d ≠ [] := by
        intro hd
        rw [hd] at hlong
        simp at hlong
      have hshrink := rtalist_shrink d hne hlen
      have hfr : (d.drop (align4 (rtaLen d))).length < f := by omega
      match d, hne with
      | x :: xs, _ =>
        simp only [collectAttrs, if_neg hlong]
        exact ih f hfr _

theorem parse_rtalistR_len0_hang {A : Type}
    (sel : Nat → Option (A → Bytes → A)) (data : Bytes)
    (hlong : ¬ data.length < 4) (h0 : rtaLen data = 0) :
    ∀ fuel accum, parse_rtalistR (liftSel sel) fuel accum data = Res.hang := by
  have hne : data ≠ [] := by
    intro hd
    rw [hd] at hlong
    simp at hlong
  have hrest : data.drop (align4 (rtaLen data)) = data := by
    rw [h0]
    rfl
  intro fuel
  induction fuel with
  | zero => intro accum; rfl
  | succ f ih =>
    intro accum
    match data, hne with
    | x :: xs, _ =>
      simp only [parse_rtalistR, if_neg hlong]
      rw [show (x :: xs).drop (align4 (rtaLen (x :: xs))) = x :: xs from hrest]
      match hs : sel (rtaType (x :: xs)) with
      | none => simp only [liftSel, hs, Option.map_none]; exact ih _
      | some op => simp only [liftSel, hs, Option.map_some]; exact ih _

/-- C10: on every buffer in which each `rtattr` header met during the
walk has `rta_len ≥ 1`, both `parse_rtalist` (with any table of pure
accumulating ops) and the TLV-collection loop of `_NlaNest.parse`
terminate within `length + 1` iterations — returning the accumulator or
raising `NllError` on a short header, never exhausting fuel — because
each iteration strictly shrinks the buffer; and on a buffer whose first
header has `rta_len = 0` the walk makes no progress (it hangs for every
amount of fuel). -/
theorem rtalist_walk_termination {A : Type}
    (sel : Nat → Option (A → Bytes → A)) (data zdata : Bytes) (accum : A)
    (attrs : List (Nat × Bytes))
    (hwf : WfWalk data)
    (hz4 : ¬ zdata.length < 4) (hz0 : rtaLen zdata = 0) :
    parse_rtalistR (liftSel sel) (data.length + 1) accum data ≠ Res.hang ∧
    collectAttrs (data.length + 1) attrs data ≠ Res.hang ∧
    (data ≠ [] → 1 ≤ rtaLen data →
      (data.drop (align4 (rtaLen data))).length < data.length) ∧
    (∀ fuel, parse_rtalistR (liftSel sel) fuel accum zdata = Res.hang) :=
  ⟨parse_rtalistR_wf_no_hang sel data hwf _ (Nat.lt_succ_self _) accum,
   collectAttrs_wf_no_hang data hwf _ (Nat.lt_succ_self _) attrs,
   fun hne hlen => rtalist_shrink data hne hlen,
   fun fuel => parse_rtalistR_len0_hang sel zdata hz4 hz0 fuel accum⟩

/-- Witness for C10: a concrete two-attribute buffer (an 8-byte and a
4-byte attribute) is walked to completion, and a buffer whose first
header has `rta_len = 0` hangs. -/
theorem rtalist_walk_termination_witness :
    parse_rtalistR (A := Nat) (liftSel (fun _ => none)) 13 0
      [8, 0, 1, 0, 9, 9, 9, 9, 4, 0, 2, 0] ≠ Res.hang ∧
    collectAttrs 13 [] [8, 0, 1, 0, 9, 9, 9, 9, 4, 0, 2, 0] ≠ Res.hang ∧
    (∀ fuel, parse_rtalistR (A := Nat) (liftSel (fun _ => none)) fuel 0
      [0, 0, 1, 0] = Res.hang) := by
  have h := rtalist_walk_termination (A := Nat) (fun _ => none)
    [8, 0, 1, 0, 9, 9, 9, 9, 4, 0, 2, 0] [0, 0, 1, 0] 0 []
    (WfWalk.step _ (by decide) (by decide)
      (WfWalk.step _ (by decide) (by decide) WfWalk.nil))
    (by decide) (by decide)
  exact ⟨h.1, h.2.1, h.2.2.2⟩

/-! ## Kernel constants

Modelled from the spec (§6.3): the numeric constants are generated from
the kernel headers by `mknetlinkdefs` (the generated `defs.py` is not in
the sources); the values below are the kernel's. -/

def NLMSG_NOOP : Nat := 1
def NLMSG_ERROR : Nat := 2
def NLMSG_DONE : Nat := 3
def NLM_F_DUMP_INTR : Nat := 16
def RTA_DST : Nat := 1
def RTA_OIF : Nat := 4
def RTA_GATEWAY : Nat := 5
def RTA_PRIORITY : Nat := 6
def RTA_MULTIPATH : Nat := 9
def RTA_TABLE : Nat := 15
def RTM_NEWLINK : Nat := 16
def RTM_NEWROUTE : Nat := 24
def ENODEV : Nat := 19

/-! ## Route parser (`netlinklib/parser_route.py`)

The accumulators of the legacy dump API are Python dicts mapping string
keys to ints, strings, or (for `multipath`) lists of dicts.  The string
an IP address renders to (`str(IPv4Address(...))` in `to_ipaddr`) is
kept abstract as a parameter `ipStr`: no claim depends on the rendering,
only on which key is set. -/

/-- A value in a route accumulator dict. -/
inductive RVal where
  | i : Int → RVal
  | s : String → RVal
  | nhl : List (List (String × RVal)) → RVal

/-- A route accumulator: a Python dict from string keys to values. -/
abbrev RAccum := List (String × RVal)

/-- The `rtnh_len` field of the `rtnexthop` struct at the head of the
buffer (pack format `"=HBBi"`; modelled from the spec §3.1). -/
def rtnhLen (data : Bytes) : Nat := natFromLE (data.take 2)

/-- The `rtnh_ifindex` field of the `rtnexthop` struct at the head of
the buffer: a signed native 32-bit integer at offset 4. -/
def rtnhIfindex (data : Bytes) : Int := intFromLE true 4 ((data.drop 4).take 4)

/-- The selector `{RTA_GATEWAY: (to_ipaddr, "gateway")}` used for the
per-nexthop attribute list in `parse_nhlist`. -/
def nhSel (ipStr : Bytes → String) : Nat → Option (RAccum → Bytes → RAccum) :=
  fun t =>
    if t = RTA_GATEWAY then
      some (fun a b => dset a "gateway" (RVal.s (ipStr b)))
    else none

/-- The attribute walk one nexthop entry gets in `parse_nhlist`:
`parse_rtalist({"ifindex": nh.rtnh_ifindex}, data[8:nh.rtnh_len], {RTA_GATEWAY: (to_ipaddr, "gateway")})`. -/
def nhEntryParse (ipStr : Bytes → String) (e : Bytes) : Res RAccum :=
  parse_rtalistR (liftSel (nhSel ipStr)) ((e.drop 8).length + 1)
    [("ifindex", RVal.i (rtnhIfindex e))] (e.drop 8)

/-- The `while len(data) >= 8` loop of `parse_nhlist`: slice one
`rtnexthop` record (header plus its own attribute tail, `rtnh_len`
bytes) off the front, parse its attributes, repeat; nonzero residual
data shorter than a header is `NllError`. -/
def nhloop (ipStr : Bytes → String) : Nat → Bytes → Res (List RAccum)
  | 0, _ => .hang
  | fuel + 1, data =>
    if data.length < 8 then (if data = [] then .ok [] else .err)
    else
      let len := rtnhLen data
      let inner := (data.take len).drop 8
      match parse_rtalistR (liftSel (nhSel ipStr)) (inner.length + 1)
          [("ifindex", RVal.i (rtnhIfindex data))] inner with
      | .ok nh =>
        match nhloop ipStr fuel (data.drop len) with
        | .ok nhs => .ok (nh :: nhs)
        | .err => .err
        | .hang => .hang
      | .err => .err
      | .hang => .hang

/-- The function `parse_nhlist` from `parser_route.py`: parse the
`RTA_MULTIPATH` payload into a list of per-nexthop dicts and store it
under `key`. -/
def parse_nhlist (ipStr : Bytes → String) (accum : RAccum) (data : Bytes)
    (key : String) : Res RAccum :=
  match nhloop ipStr (data.length + 1) data with
  | .ok nhs => .ok (dset accum key (RVal.nhl nhs))
  | .err => .err
  | .hang => .hang

/-- The selector `_newroute_sel` from `parser_route.py`. -/
def newrouteSel (ipStr : Bytes → String) :
    Nat → Option (RAccum → Bytes → Res RAccum) :=
  fun t =>
    if t = RTA_DST then
      some (fun a b => .ok (dset a "dst" (RVal.s (ipStr b))))
    else if t = RTA_PRIORITY then
      some (fun a b => .ok (dset a "metric" (RVal.i (natFromLE b))))
    else if t = RTA_TABLE then
      some (fun a b => .ok (dset a "table" (RVal.i (natFromLE b))))
    else if t = RTA_OIF then
      some (fun a b => .ok (dset a "ifindex" (RVal.i (natFromLE b))))
    else if t = RTA_GATEWAY then
      some (fun a b => .ok (dset a "gateway" (RVal.s (ipStr b))))
    else if t = RTA_MULTIPATH then
      some (fun a b => parse_nhlist ipStr a b "multipath")
    else none

/-- Filter arguments of `newroute_parser` (Python defaults `0` / `None`;
`0` is falsy, disabling the corresponding check). -/
structure RouteFilter where
  table : Nat := 0
  protocol : Nat := 0
  scope : Nat := 0
  typ : Nat := 0
  table_set : Option (List Nat) := none

/-- The header filter of `newroute_parser`: reject before the attribute
walk when a requested field value does not match the `rtmsg` header. -/
def routeFiltered (fl : RouteFilter)
    (rtm_table rtm_protocol rtm_scope rtm_type : Nat) : Bool :=
  (match fl.table_set with
   | some ts => decide (rtm_table ∉ ts)
   | none => false) ||
  (decide (fl.table ≠ 0) && decide (rtm_table ≠ fl.table)) ||
  (decide (fl.protocol ≠ 0) && decide (rtm_protocol ≠ fl.protocol)) ||
  (decide (fl.scope ≠ 0) && decide (rtm_scope ≠ fl.scope)) ||
  (decide (fl.typ ≠ 0) && decide (rtm_type ≠ fl.typ))

/-- The initial accumulator dict of `newroute_parser`, populated from
the `rtmsg` header (pack format `"=BBBBBBBBI"`; modelled from the spec
§3.1: `family, dst_len, src_len, tos, table, protocol, scope, type,
flags`). -/
def newrouteInit (message : Bytes) : RAccum :=
  [("family", RVal.i (message.getD 0 0)),
   ("dst_prefixlen", RVal.i (message.getD 1 0)),
   ("table", RVal.i (message.getD 4 0)),
   ("type", RVal.i (message.getD 7 0)),
   ("protocol", RVal.i (message.getD 5 0)),
   ("scope", RVal.i (message.getD 6 0))]

/-- The function `newroute_parser` from `parser_route.py`: filter on the
`rtmsg` header, walk the attribute list, then flatten — one result dict
per nexthop when `multipath` was collected (nexthop values overriding
route-level values), a single result dict otherwise. -/
def newroute_flatten (ipStr : Bytes → String) (fl : RouteFilter)
    (message : Bytes) : Res (List RAccum) :=
  if message.length < 12 then .err
  else if routeFiltered fl (message.getD 4 0) (message.getD 5 0)
      (message.getD 6 0) (message.getD 7 0) then .ok []
  else
    match parse_rtalistR (newrouteSel ipStr) ((message.drop 12).length + 1)
        (newrouteInit message) (message.drop 12) with
    | .ok m =>
      match dlookup m "multipath" with
      | none => .ok [m]
      | some (RVal.nhl nhops) =>
        .ok (nhops.map (fun nh => dmerge (dremove m "multipath") nh))
      | some _ => .err
    | .err => .err
    | .hang => .hang

theorem nhloop_flatten (ipStr : Bytes → String) (entries : List Bytes)
    (nhs : List RAccum)
    (h : List.Forall₂ (fun e nh => 8 ≤ e.length ∧ rtnhLen e = e.length ∧
        nhEntryParse ipStr e = Res.ok nh) entries nhs) :
    ∀ fuel, entries.flatten.length < fuel →
      nhloop ipStr fuel entries.flatten = Res.ok nhs := by
  induction h with
  | nil =>
    intro fuel hf
    match fuel, hf with
    | f + 1, _ => simp [nhloop]
  | @cons e nh es ns h1 h2 ih =>
    intro fuel hf
    obtain ⟨hlen8, hlenexact, hentry⟩ := h1
    have hflat : (e :: es).flatten = e ++ es.flatten := rfl
    rw [hflat] at hf ⊢
    have hdatalen : (e ++ es.flatten).length = e.length + es.flatten.length := by
      simp
    match fuel, hf with
    | f + 1, _ =>
      have hnotshort : ¬ (e ++ es.flatten).length < 8 := by omega
      have htake2 : (e ++ es.flatten).take 2 = e.take 2 :=
        List.take_append_of_le_length (by omega)
      have hrtnh : rtnhLen (e ++ es.flatten) = e.length := by
        unfold rtnhLen
        rw [htake2]
        exact hlenexact
      have htakelen : (e ++ es.flatten).take e.length = e :=
        List.take_left' rfl
      have hdroplen : (e ++ es.flatten).drop e.length = es.flatten :=
        List.drop_left' rfl
      have hifidx : rtnhIfindex (e ++ es.flatten) = rtnhIfindex e := by
        unfold rtnhIfindex
        rw [List.drop_append_of_le_length (by omega),
          List.take_append_of_le_length (by simp; omega)]
      simp only [nhloop, if_neg hnotshort, hrtnh, htakelen, hdroplen, hifidx]
      rw [show parse_rtalistR (liftSel (nhSel ipStr)) ((e.drop 8).length + 1)
          [("ifindex", RVal.i (rtnhIfindex e))] (e.drop 8) = Res.ok nh
        from hentry]
      rw [ih f (by omega)]

/-- C9: for a `RTM_NEWROUTE` message that passes the header filters and
whose attribute walk succeeds — first conjunct: when the walk collected
an `RTA_MULTIPATH` list of `n` nexthop dicts, the parser returns exactly
those `n` results, each the route-level field set (the walk result minus
the `multipath` key) merged with that nexthop's fields, nexthop values
overriding; second conjunct: when `multipath` is absent it returns the
single route-level dict; third conjunct: on a multipath payload that is
a concatenation of well-formed `rtnexthop` entries (each at least eight
bytes with `rtnh_len` equal to its exact length and a clean attribute
tail), `parse_nhlist` stores one dict per entry, so `n` equals the
number of wire entries. -/
theorem newroute_flatten_spec (ipStr : Bytes → String)
    (fl : RouteFilter) (message : Bytes) (A : RAccum)
    (entries : List Bytes) (nhs : List RAccum) (accum : RAccum) (key : String)
    (hlen : ¬ message.length < 12)
    (hfilter : routeFiltered fl (message.getD 4 0) (message.getD 5 0)
        (message.getD 6 0) (message.getD 7 0) = false)
    (hwalk : parse_rtalistR (newrouteSel ipStr) ((message.drop 12).length + 1)
        (newrouteInit message) (message.drop 12) = Res.ok A)
    (hnh : List.Forall₂ (fun e nh => 8 ≤ e.length ∧ rtnhLen e = e.length ∧
        nhEntryParse ipStr e = Res.ok nh) entries nhs) :
    (∀ nhops, dlookup A "multipath" = some (RVal.nhl nhops) →
      newroute_flatten ipStr fl message
        = Res.ok (nhops.map (fun nh => dmerge (dremove A "multipath") nh)) ∧
      (nhops.map (fun nh => dmerge (dremove A "multipath") nh)).length
        = nhops.length) ∧
    (dlookup A "multipath" = none →
      newroute_flatten ipStr fl message = Res.ok [A]) ∧
    (parse_nhlist ipStr accum entries.flatten key
        = Res.ok (dset accum key (RVal.nhl nhs)) ∧
      nhs.length = entries.length) := by
  refine ⟨?_, ?_, ?_, ?_⟩
  · intro nhops hmp
    unfold newroute_flatten
    rw [if_neg hlen, if_neg (by rw [hfilter]; simp), hwalk]
    simp only [hmp]
    exact ⟨trivial, by simp⟩
  · intro hmp
    unfold newroute_flatten
    rw [if_neg hlen, if_neg (by rw [hfilter]; simp), hwalk]
    simp only [hmp]
  · unfold parse_nhlist
    rw [nhloop_flatten ipStr entries nhs hnh _ (Nat.lt_succ_self _)]
  · exact (List.Forall₂.length_eq hnh).symm

/-- Example route message header: `rtmsg{family=2, dst_len=0, table=254,
type=1}` (spec §8 scenario 4). -/
def exRtmsg : Bytes := [2, 0, 0, 0, 254, 0, 0, 1, 0, 0, 0, 0]

/-- Example nexthop entry: `rtnexthop{len=16, ifindex=2}` +
`RTA_GATEWAY` payload `1.1.1.1`. -/
def exNh1 : Bytes := [16, 0, 0, 0, 2, 0, 0, 0, 8, 0, 5, 0, 1, 1, 1, 1]

/-- Example nexthop entry: `rtnexthop{len=16, ifindex=3}` +
`RTA_GATEWAY` payload `2.2.2.2`. -/
def exNh2 : Bytes := [16, 0, 0, 0, 3, 0, 0, 0, 8, 0, 5, 0, 2, 2, 2, 2]

/-- Example `RTM_NEWROUTE` message body: the `rtmsg` header followed by
one `RTA_MULTIPATH` attribute holding the two nexthop entries. -/
def exRouteMsg : Bytes := exRtmsg ++ [36, 0, 9, 0] ++ exNh1 ++ exNh2

/-- A concrete IP-address rendering for the examples. -/
def exIpStr : Bytes → String := fun _ => "ip"

/-- The route-level fields `newroute_parser` reads off `exRtmsg`. -/
def exRoute6 : RAccum :=
  [("family", RVal.i 2), ("dst_prefixlen", RVal.i 0), ("table", RVal.i 254),
   ("type", RVal.i 1), ("protocol", RVal.i 0), ("scope", RVal.i 0)]

/-- The dict parsed from the first example nexthop. -/
def exNhd1 : RAccum := [("ifindex", RVal.i 2), ("gateway", RVal.s "ip")]

/-- The dict parsed from the second example nexthop. -/
def exNhd2 : RAccum := [("ifindex", RVal.i 3), ("gateway", RVal.s "ip")]

/-- The full accumulator after the attribute walk over `exRouteMsg`. -/
def exA : RAccum := exRoute6 ++ [("multipath", RVal.nhl [exNhd1, exNhd2])]

/-- Witness for C9: the concrete two-nexthop multipath route message
yields exactly two results, each the route-level fields merged with one
nexthop's fields. -/
theorem newroute_flatten_spec_witness :
    newroute_flatten exIpStr {} exRouteMsg
      = Res.ok [exRoute6 ++ exNhd1, exRoute6 ++ exNhd2] ∧
    parse_nhlist exIpStr [] (exNh1 ++ exNh2) "multipath"
      = Res.ok [("multipath", RVal.nhl [exNhd1, exNhd2])] := by
  have h := newroute_flatten_spec exIpStr {} exRouteMsg exA [exNh1, exNh2]
    [exNhd1, exNhd2] [] "multipath" (by decide) rfl rfl
    (List.Forall₂.cons ⟨by decide, by decide, rfl⟩
      (List.Forall₂.cons ⟨by decide, by decide, rfl⟩ List.Forall₂.nil))
  exact ⟨(h.1 [exNhd1, exNhd2] rfl).1, h.2.2.1⟩

/-! ## Transport drivers (`netlinklib/core.py`, `netlinklib/legacy_core.py`)

The framer `_messages` yields `(type, flags, seq, pid, payload)` tuples;
the drivers below consume such a stream.  A driver's run is modelled as
the list of values its generator yields plus how it ends. -/

/-- One framed netlink message, as the tuple `_messages` yields. -/
structure Msg where
  typ : Nat
  flags : Nat
  seq : Nat
  pid : Nat
  payload : Bytes
deriving DecidableEq

/-- How a driver's receive loop ends. -/
inductive Term where
  | ok : Term
  | errNll : Int → Term
  | errStruct : Term
  | errBadType : Term
  | dumpIntr : Term
deriving DecidableEq

/-- The yields and the final outcome of a driver's receive loop. -/
structure SendOut where
  yields : List Bytes
  term : Term
deriving DecidableEq

/-- The signed 32-bit `error` field at the head of an `NLMSG_ERROR`
payload (`nlmsgerr`, pack format `"=i"`, `netlinklib/datatypes.py`);
`unpack` fails on fewer than four bytes. -/
def nlmsgerrError (payload : Bytes) : Int := intFromLE true 4 (payload.take 4)

/-- The receive loop of `_nll_send` (`core.py`), shared by
`nll_get_dump` and `nll_transact`: skip `NLMSG_NOOP`; on `NLMSG_ERROR`
raise `NllError(emh.error, …)` when the error field is nonzero but yield
an empty message and continue when it is zero; raise on an unexpected
type; latch `NLM_F_DUMP_INTR` from expected-type messages and raise
`NllDumpInterrupted` only after the stream ends. -/
def nllSend (rtyp : Nat) : List Msg → Bool → SendOut
  | [], intr => ⟨[], if intr then .dumpIntr else .ok⟩
  | m :: rest, intr =>
    if m.typ = NLMSG_NOOP then nllSend rtyp rest intr
    else if m.typ = NLMSG_ERROR then
      if m.payload.length < 4 then ⟨[], .errStruct⟩
      else if nlmsgerrError m.payload ≠ 0 then
        ⟨[], .errNll (nlmsgerrError m.payload)⟩
      else
        let r := nllSend rtyp rest intr
        ⟨[] :: r.yields, r.term⟩
    else if m.typ ≠ rtyp then ⟨[], .errBadType⟩
    else
      let r := nllSend rtyp rest
        (intr || decide (m.flags &&& NLM_F_DUMP_INTR ≠ 0))
      ⟨m.payload :: r.yields, r.term⟩

/-- How the legacy dump loop ends (`_legacy_nll_get_dump` in `core.py`,
identically `_nll_get_dump` in `legacy_core.py`). -/
inductive LTerm where
  | ok : LTerm
  | errMsg : LTerm
  | errBadType : LTerm
  | dumpIntr : LTerm
deriving DecidableEq

/-- The receive loop of the legacy dump driver: skip `NLMSG_NOOP`;
raise `NllError` on every `NLMSG_ERROR` regardless of the error code;
raise on an unexpected type; otherwise yield `parser(message)`. -/
def legacyDump {B : Type} (rtyp : Nat) (parser : Bytes → B) :
    List Msg → Bool → List B × LTerm
  | [], intr => ([], if intr then .dumpIntr else .ok)
  | m :: rest, intr =>
    if m.typ = NLMSG_NOOP then legacyDump rtyp parser rest intr
    else if m.typ = NLMSG_ERROR then ([], .errMsg)
    else if m.typ ≠ rtyp then ([], .errBadType)
    else
      let r := legacyDump rtyp parser rest
        (intr || decide (m.flags &&& NLM_F_DUMP_INTR ≠ 0))
      (parser m.payload :: r.1, r.2)

/-- The function `nll_get_dump` (`core.py`): build the request, then
parse each yielded message with a fresh accumulator, silently dropping
messages whose parser raised `StopParsing` (the parser argument returns
`none` for those).  With no caller socket the ephemeral-socket branch
runs `yield from _parse(_nll_send(...))`; with a caller-supplied socket
the source merely assigns `dump = _parse(_nll_send(sk, msg, rtyp))` and
never iterates it, so the generator ends at once: nothing is sent and
nothing is yielded. -/
def nll_get_dump {A : Type} (skSupplied : Bool) (rtyp : Nat)
    (stream : List Msg) (parser : Bytes → Option A) : List A × Term :=
  if skSupplied then ([], Term.ok)
  else
    let r := nllSend rtyp stream false
    (r.yields.filterMap parser, r.term)

/-- Outcome of the reply handling of `_legacy_nll_transact`
(`legacy_core.py`, identical in `_legacy_nll_transact` of `core.py`):
`errNll e` models `NllError(emh.error, …)` raised with the raw
(negative) wire value as its first argument. -/
inductive TRes where
  | ok : Bytes → TRes
  | errNll : Int → TRes
  | errStruct : TRes
  | errBadType : TRes
deriving DecidableEq

/-- Reply handling of the legacy transact driver, given the reply
message's type and its bytes after the `nlmsghdr`. -/
def legacy_transact_reply (expect : Nat) (rtyp : Nat) (payload : Bytes) :
    TRes :=
  if rtyp = NLMSG_ERROR then
    if payload.length < 4 then .errStruct
    else if nlmsgerrError payload ≠ 0 then .errNll (nlmsgerrError payload)
    else .ok []
  else if rtyp ≠ expect then .errBadType
  else .ok payload

/-- Outcome of `nll_link_lookup` (`api_link.py`). -/
inductive LookupOut where
  | found : Int → LookupOut
  | nulled : LookupOut
  | reraised : Int → LookupOut
  | errOther : LookupOut
deriving DecidableEq

/-- The function `nll_link_lookup`: transact `RTM_GETLINK` expecting
`RTM_NEWLINK`; catch `NllError` and return `None` when its first
argument equals `-ENODEV`, re-raise otherwise; on success return
`ifinfomsg(msg).ifi_index` (signed 32-bit at offset 4 of the 16-byte
`ifinfomsg`, layout modelled from the spec §3.1). -/
def nll_link_lookup (rtyp : Nat) (payload : Bytes) : LookupOut :=
  match legacy_transact_reply RTM_NEWLINK rtyp payload with
  | .ok msg =>
    if msg.length < 16 then .errOther
    else .found (intFromLE true 4 ((msg.drop 4).take 4))
  | .errNll e => if e = -(ENODEV : Int) then .nulled else .reraised e
  | .errStruct => .errOther
  | .errBadType => .errOther

/-- The yields a clean dump stream produces: nothing for `NLMSG_NOOP`,
an empty message for a zero-code `NLMSG_ERROR`, the payload otherwise. -/
def dumpYields (msgs : List Msg) : List Bytes :=
  msgs.filterMap (fun m =>
    if m.typ = NLMSG_NOOP then none
    else if m.typ = NLMSG_ERROR then some []
    else some m.payload)

theorem nllSend_valid_prefix (rtyp : Nat) (pre : List Msg)
    (hrt1 : rtyp ≠ NLMSG_NOOP) (hrt2 : rtyp ≠ NLMSG_ERROR)
    (hpre : ∀ x ∈ pre, x.typ = rtyp) :
    ∀ (tail : List Msg) (intr : Bool), ∃ intr',
      nllSend rtyp (pre ++ tail) intr
        = ⟨pre.map Msg.payload ++ (nllSend rtyp tail intr').yields,
           (nllSend rtyp tail intr').term⟩ := by
  induction pre with
  | nil =>
    intro tail intr
    exact ⟨intr, rfl⟩
  | cons x pre ih =>
    intro tail intr
    have hx : x.typ = rtyp := hpre x (List.mem_cons_self _ _)
    obtain ⟨intr', hi⟩ := ih (fun y hy => hpre y (List.mem_cons_of_mem _ hy))
      tail (intr || decide (x.flags &&& NLM_F_DUMP_INTR ≠ 0))
    refine ⟨intr', ?_⟩
    simp only [List.cons_append, nllSend, hx, if_neg hrt1, if_neg hrt2,
      ite_not, if_true, List.append_eq]
    rw [hi]
    simp

theorem legacyDump_valid_prefix {B : Type} (rtyp : Nat) (parser : Bytes → B)
    (pre : List Msg)
    (hrt1 : rtyp ≠ NLMSG_NOOP) (hrt2 : rtyp ≠ NLMSG_ERROR)
    (hpre : ∀ x ∈ pre, x.typ = rtyp) :
    ∀ (tail : List Msg) (intr : Bool), ∃ intr',
      legacyDump rtyp parser (pre ++ tail) intr
        = (pre.map (fun x => parser x.payload)
            ++ (legacyDump rtyp parser tail intr').1,
           (legacyDump rtyp parser tail intr').2) := by
  induction pre with
  | nil =>
    intro tail intr
    exact ⟨intr, rfl⟩
  | cons x pre ih =>
    intro tail intr
    have hx : x.typ = rtyp := hpre x (List.mem_cons_self _ _)
    obtain ⟨intr', hi⟩ := ih (fun y hy => hpre y (List.mem_cons_of_mem _ hy))
      tail (intr || decide (x.flags &&& NLM_F_DUMP_INTR ≠ 0))
    refine ⟨intr', ?_⟩
    simp only [List.cons_append, legacyDump, hx, if_neg hrt1, if_neg hrt2,
      ite_not, if_true, List.append_eq]
    rw [hi]
    simp

/-- C2 counterexample: an `NLMSG_ERROR` with error code zero in a dump
stream read by `_nll_send` does not raise a terminal failure — it yields
an empty message and the stream continues (a following valid message is
still yielded and the run ends `ok`). -/
theorem nllSend_error_zero_counterexample :
    nllSend RTM_NEWROUTE
      [⟨NLMSG_ERROR, 0, 1, 0, [0, 0, 0, 0]⟩, ⟨RTM_NEWROUTE, 0, 1, 0, [7]⟩]
      false = ⟨[[], [7]], Term.ok⟩ := by decide

/-- C2 (amended): in a dump-reply stream read by `_nll_send`, an
`NLMSG_ERROR` with a nonzero error code raises `NllError` and yields
nothing beyond the messages before it; an `NLMSG_ERROR` with error code
zero yields an empty message and the stream continues; the legacy dump
drivers (`_legacy_nll_get_dump`, `legacy_core._nll_get_dump`) raise
`NllError` on every `NLMSG_ERROR` regardless of its code. -/
theorem dump_error_handling {B : Type} (rtyp : Nat) (pre rest : List Msg)
    (m : Msg) (parser : Bytes → B) (intr : Bool)
    (hrt1 : rtyp ≠ NLMSG_NOOP) (hrt2 : rtyp ≠ NLMSG_ERROR)
    (hpre : ∀ x ∈ pre, x.typ = rtyp)
    (herr : m.typ = NLMSG_ERROR) (hlen : ¬ m.payload.length < 4) :
    (nlmsgerrError m.payload ≠ 0 →
      nllSend rtyp (pre ++ m :: rest) intr
        = ⟨pre.map Msg.payload, Term.errNll (nlmsgerrError m.payload)⟩) ∧
    (nlmsgerrError m.payload = 0 →
      nllSend rtyp (m :: rest) intr
        = ⟨[] :: (nllSend rtyp rest intr).yields,
           (nllSend rtyp rest intr).term⟩) ∧
    legacyDump rtyp parser (pre ++ m :: rest) intr
      = (pre.map (fun x => parser x.payload), LTerm.errMsg) := by
  have hnoop : m.typ ≠ NLMSG_NOOP := by
    rw [herr]
    decide
  refine ⟨?_, ?_, ?_⟩
  · intro he
    obtain ⟨intr', hi⟩ := nllSend_valid_prefix rtyp pre hrt1 hrt2 hpre
      (m :: rest) intr
    rw [hi]
    have hm : nllSend rtyp (m :: rest) intr'
        = ⟨[], .errNll (nlmsgerrError m.payload)⟩ := by
      simp only [nllSend, if_neg hnoop, if_pos herr, if_neg hlen, if_pos he]
    rw [hm]
    simp
  · intro he
    simp only [nllSend, if_neg hnoop, if_pos herr, if_neg hlen, he]
    simp
  · obtain ⟨intr', hi⟩ := legacyDump_valid_prefix rtyp parser pre hrt1 hrt2
      hpre (m :: rest) intr
    rw [hi]
    have hm : legacyDump rtyp parser (m :: rest) intr' = ([], LTerm.errMsg) := by
      simp only [legacyDump]
      rw [if_neg hnoop, if_pos herr]
    rw [hm]
    simp

/-- Witness for C2 (amended): concrete streams — a nonzero error after
one valid message stops the dump with `NllError(-19)`, a zero error is
yielded as an empty message and the stream continues, and the legacy
driver raises even on a zero error code. -/
theorem dump_error_handling_witness :
    nllSend RTM_NEWROUTE
      [⟨RTM_NEWROUTE, 0, 1, 0, [7]⟩, ⟨NLMSG_ERROR, 0, 1, 0, [237, 255, 255, 255]⟩,
       ⟨RTM_NEWROUTE, 0, 1, 0, [8]⟩] false
      = ⟨[[7]], Term.errNll (-19)⟩ ∧
    nllSend RTM_NEWROUTE
      [⟨NLMSG_ERROR, 0, 1, 0, [0, 0, 0, 0]⟩, ⟨RTM_NEWROUTE, 0, 1, 0, [8]⟩] false
      = ⟨[] :: (nllSend RTM_NEWROUTE [⟨RTM_NEWROUTE, 0, 1, 0, [8]⟩] false).yields,
         (nllSend RTM_NEWROUTE [⟨RTM_NEWROUTE, 0, 1, 0, [8]⟩] false).term⟩ ∧
    legacyDump RTM_NEWROUTE (fun b => b)
      [⟨RTM_NEWROUTE, 0, 1, 0, [7]⟩, ⟨NLMSG_ERROR, 0, 1, 0, [0, 0, 0, 0]⟩] false
      = ([[7]], LTerm.errMsg) := by
  have h1 := dump_error_handling (B := Bytes) RTM_NEWROUTE
    [⟨RTM_NEWROUTE, 0, 1, 0, [7]⟩] [⟨RTM_NEWROUTE, 0, 1, 0, [8]⟩]
    ⟨NLMSG_ERROR, 0, 1, 0, [237, 255, 255, 255]⟩ (fun b => b) false
    (by decide) (by decide) (by intro x hx; fin_cases hx; rfl)
    rfl (by decide)
  have h2 := dump_error_handling (B := Bytes) RTM_NEWROUTE
    [] [⟨RTM_NEWROUTE, 0, 1, 0, [8]⟩]
    ⟨NLMSG_ERROR, 0, 1, 0, [0, 0, 0, 0]⟩ (fun b => b) false
    (by decide) (by decide) (by intro x hx; fin_cases hx)
    rfl (by decide)
  have h3 := dump_error_handling (B := Bytes) RTM_NEWROUTE
    [⟨RTM_NEWROUTE, 0, 1, 0, [7]⟩] []
    ⟨NLMSG_ERROR, 0, 1, 0, [0, 0, 0, 0]⟩ (fun b => b) false
    (by decide) (by decide) (by intro x hx; fin_cases hx; rfl)
    rfl (by decide)
  exact ⟨h1.1 (by decide), h2.2.1 (by decide), h3.2.2⟩

/-- C1 (code bug): `nll_get_dump` with a caller-supplied socket assigns
the generator `dump = _parse(_nll_send(sk, msg, rtyp))` and never
iterates it, so nothing is sent and nothing is yielded — for every
stream the caller gets an empty iterator, while the ephemeral-socket
path yields the parsed accumulators. -/
theorem nll_get_dump_supplied_socket_yields_nothing :
    (∀ (stream : List Msg) (parser : Bytes → Option Bytes),
      nll_get_dump true RTM_NEWROUTE stream parser = ([], Term.ok)) ∧
    nll_get_dump false RTM_NEWROUTE [⟨RTM_NEWROUTE, 0, 1, 0, [5]⟩]
      (fun b => some b) = ([[5]], Term.ok) ∧
    nll_get_dump true RTM_NEWROUTE [⟨RTM_NEWROUTE, 0, 1, 0, [5]⟩]
      (fun b => some b) = ([], Term.ok) :=
  ⟨fun _ _ => rfl, by decide, by decide⟩

/-- C3 counterexample: a transact whose reply is `NLMSG_ERROR` carrying
wire value `-19` (`-ENODEV`) raises `NllError` whose first payload value
is the raw negative wire value `-19`, not the positive errno `19`. -/
theorem transact_error_negative_counterexample :
    legacy_transact_reply RTM_NEWLINK NLMSG_ERROR [237, 255, 255, 255]
      = TRes.errNll (-19) ∧ (-19 : Int) ≠ 19 := by
  constructor
  · rfl
  · decide

/-- C3 (amended): for every transact whose reply is `NLMSG_ERROR` with a
nonzero error field, the operation fails with `NllError` whose first
payload value is the raw (negative) wire value `emh.error` — not its
negation — together with a `strerror(-error)` description; accordingly
`nll_link_lookup` detects a missing device by comparing that first value
against `-ENODEV` and returns `None` exactly when the wire value equals
`-ENODEV`. -/
theorem transact_error_raw_value (expect : Nat) (payload : Bytes)
    (hlen : ¬ payload.length < 4) (hne : nlmsgerrError payload ≠ 0) :
    legacy_transact_reply expect NLMSG_ERROR payload
      = TRes.errNll (nlmsgerrError payload) ∧
    (nll_link_lookup NLMSG_ERROR payload = LookupOut.nulled ↔
      nlmsgerrError payload = -(ENODEV : Int)) := by
  have h : legacy_transact_reply expect NLMSG_ERROR payload
      = TRes.errNll (nlmsgerrError payload) := by
    unfold legacy_transact_reply
    rw [if_pos rfl, if_neg hlen, if_pos hne]
  refine ⟨h, ?_⟩
  have h2 : nll_link_lookup NLMSG_ERROR payload
      = (if nlmsgerrError payload = -(ENODEV : Int) then LookupOut.nulled
         else LookupOut.reraised (nlmsgerrError payload)) := by
    unfold nll_link_lookup
    rw [show legacy_transact_reply RTM_NEWLINK NLMSG_ERROR payload
        = TRes.errNll (nlmsgerrError payload) from by
      unfold legacy_transact_reply
      rw [if_pos rfl, if_neg hlen, if_pos hne]]
  rw [h2]
  by_cases hc : nlmsgerrError payload = -(ENODEV : Int)
  · simp [hc]
  · rw [if_neg hc]
    simp [hc]

/-- Witness for C3 (amended): on the concrete `-ENODEV` reply the first
error value is `-19` and the lookup returns `None`. -/
theorem transact_error_raw_value_witness :
    legacy_transact_reply RTM_NEWLINK NLMSG_ERROR [237, 255, 255, 255]
      = TRes.errNll (nlmsgerrError [237, 255, 255, 255]) ∧
    (nll_link_lookup NLMSG_ERROR [237, 255, 255, 255] = LookupOut.nulled ↔
      nlmsgerrError [237, 255, 255, 255] = -(ENODEV : Int)) :=
  transact_error_raw_value RTM_NEWLINK [237, 255, 255, 255]
    (by decide) (by decide)

theorem nllSend_no_flag_keeps_intr (rtyp : Nat) (msgs : List Msg)
    (hflag : ∀ m ∈ msgs, m.flags &&& NLM_F_DUMP_INTR = 0) :
    ∀ intr, (nllSend rtyp msgs intr).term = Term.dumpIntr → intr = true := by
  induction msgs with
  | nil =>
    intro intr h
    cases intr
    · simp [nllSend] at h
    · rfl
  | cons m rest ih =>
    intro intr h
    have hm : m.flags &&& NLM_F_DUMP_INTR = 0 := hflag m (List.mem_cons_self _ _)
    have ihr := ih (fun x hx => hflag x (List.mem_cons_of_mem _ hx))
    simp only [nllSend] at h
    by_cases h1 : m.typ = NLMSG_NOOP
    · rw [if_pos h1] at h
      exact ihr intr h
    · rw [if_neg h1] at h
      by_cases h2 : m.typ = NLMSG_ERROR
      · rw [if_pos h2] at h
        by_cases h3 : m.payload.length < 4
        · rw [if_pos h3] at h
          simp at h
        · rw [if_neg h3] at h
          by_cases h4 : nlmsgerrError m.payload ≠ 0
          · rw [if_pos h4] at h
            simp at h
          · rw [if_neg h4] at h
            exact ihr intr h
      · rw [if_neg h2] at h
        by_cases h5 : m.typ ≠ rtyp
        · rw [if_pos h5] at h
          simp at h
        · rw [if_neg h5] at h
          have heq : (intr || decide (m.flags &&& NLM_F_DUMP_INTR ≠ 0)) = intr := by
            rw [hm]
            simp
          rw [heq] at h
          exact ihr intr h

theorem nllSend_dumpIntr_yields (rtyp : Nat) (msgs : List Msg) :
    ∀ intr, (nllSend rtyp msgs intr).term = Term.dumpIntr →
      (nllSend rtyp msgs intr).yields = dumpYields msgs := by
  induction msgs with
  | nil =>
    intro intr _
    rfl
  | cons m rest ih =>
    intro intr h
    simp only [nllSend] at h ⊢
    by_cases h1 : m.typ = NLMSG_NOOP
    · rw [if_pos h1] at h ⊢
      rw [ih intr h]
      simp [dumpYields, List.filterMap_cons, h1]
    · rw [if_neg h1] at h ⊢
      by_cases h2 : m.typ = NLMSG_ERROR
      · rw [if_pos h2] at h ⊢
        by_cases h3 : m.payload.length < 4
        · rw [if_pos h3] at h
          simp at h
        · rw [if_neg h3] at h ⊢
          by_cases h4 : nlmsgerrError m.payload ≠ 0
          · rw [if_pos h4] at h
            simp at h
          · rw [if_neg h4] at h ⊢
            rw [ih intr h]
            simp only [dumpYields, List.filterMap_cons, h1, h2, if_pos,
              if_neg, ite_false, ite_true]
            rfl
      · rw [if_neg h2] at h ⊢
        by_cases h5 : m.typ ≠ rtyp
        · rw [if_pos h5] at h
          simp at h
        · rw [if_neg h5] at h ⊢
          rw [ih _ h]
          simp [dumpYields, List.filterMap_cons, h1, h2]

theorem nllSend_all_valid_intr_true (rtyp : Nat)
    (hrt1 : rtyp ≠ NLMSG_NOOP) (hrt2 : rtyp ≠ NLMSG_ERROR)
    (msgs : List Msg) (hval : ∀ m ∈ msgs, m.typ = rtyp) :
    nllSend rtyp msgs true = ⟨msgs.map Msg.payload, Term.dumpIntr⟩ := by
  induction msgs with
  | nil => rfl
  | cons m rest ih =>
    have hm : m.typ = rtyp := hval m (List.mem_cons_self _ _)
    have ihr := ih (fun x hx => hval x (List.mem_cons_of_mem _ hx))
    simp only [nllSend, hm, if_neg hrt1, if_neg hrt2, ite_not, if_true,
      Bool.true_or]
    rw [ihr]
    simp

theorem nllSend_flagged_dumpIntr (rtyp : Nat)
    (hrt1 : rtyp ≠ NLMSG_NOOP) (hrt2 : rtyp ≠ NLMSG_ERROR)
    (msgs : List Msg) (hval : ∀ m ∈ msgs, m.typ = rtyp)
    (hflag : ∃ m ∈ msgs, m.flags &&& NLM_F_DUMP_INTR ≠ 0) :
    nllSend rtyp msgs false = ⟨msgs.map Msg.payload, Term.dumpIntr⟩ := by
  induction msgs with
  | nil => simp at hflag
  | cons m rest ih =>
    have hm : m.typ = rtyp := hval m (List.mem_cons_self _ _)
    have hvr : ∀ x ∈ rest, x.typ = rtyp :=
      fun x hx => hval x (List.mem_cons_of_mem _ hx)
    simp only [nllSend, hm, if_neg hrt1, if_neg hrt2, ite_not, if_true,
      Bool.false_or]
    by_cases hf : m.flags &&& NLM_F_DUMP_INTR ≠ 0
    · rw [show decide (m.flags &&& NLM_F_DUMP_INTR ≠ 0) = true from by
        simp [hf]]
      rw [nllSend_all_valid_intr_true rtyp hrt1 hrt2 rest hvr]
      simp
    · rw [show decide (m.flags &&& NLM_F_DUMP_INTR ≠ 0) = false from by
        simp
        omega]
      have hfr : ∃ x ∈ rest, x.flags &&& NLM_F_DUMP_INTR ≠ 0 := by
        obtain ⟨y, hy, hyf⟩ := hflag
        rcases List.mem_cons.mp hy with h | h
        · exact absurd (h ▸ hyf) hf
        · exact ⟨y, h, hyf⟩
      rw [ih hvr hfr]
      simp

/-- The values a clean legacy dump stream yields: nothing for
`NLMSG_NOOP`, `parser(message)` otherwise. -/
def legacyYields {B : Type} (parser : Bytes → B) (msgs : List Msg) : List B :=
  msgs.filterMap (fun m =>
    if m.typ = NLMSG_NOOP then none else some (parser m.payload))

theorem legacyDump_no_flag_keeps_intr {B : Type} (rtyp : Nat)
    (parser : Bytes → B) (msgs : List Msg)
    (hflag : ∀ m ∈ msgs, m.flags &&& NLM_F_DUMP_INTR = 0) :
    ∀ intr, (legacyDump rtyp parser msgs intr).2 = LTerm.dumpIntr →
      intr = true := by
  induction msgs with
  | nil =>
    intro intr h
    cases intr
    · simp [legacyDump] at h
    · rfl
  | cons m rest ih =>
    intro intr h
    have hm : m.flags &&& NLM_F_DUMP_INTR = 0 := hflag m (List.mem_cons_self _ _)
    have ihr := ih (fun x hx => hflag x (List.mem_cons_of_mem _ hx))
    simp only [legacyDump] at h
    by_cases h1 : m.typ = NLMSG_NOOP
    · rw [if_pos h1] at h
      exact ihr intr h
    · rw [if_neg h1] at h
      by_cases h2 : m.typ = NLMSG_ERROR
      · rw [if_pos h2] at h
        simp at h
      · rw [if_neg h2] at h
        by_cases h5 : m.typ ≠ rtyp
        · rw [if_pos h5] at h
          simp at h
        · rw [if_neg h5] at h
          have heq : (intr || decide (m.flags &&& NLM_F_DUMP_INTR ≠ 0))
              = intr := by
            rw [hm]
            simp
          rw [heq] at h
          exact ihr intr h

theorem legacyDump_dumpIntr_yields {B : Type} (rtyp : Nat)
    (parser : Bytes → B) (msgs : List Msg) :
    ∀ intr, (legacyDump rtyp parser msgs intr).2 = LTerm.dumpIntr →
      (legacyDump rtyp parser msgs intr).1 = legacyYields parser msgs := by
  induction msgs with
  | nil =>
    intro intr _
    rfl
  | cons m rest ih =>
    intro intr h
    simp only [legacyDump] at h ⊢
    by_cases h1 : m.typ = NLMSG_NOOP
    · rw [if_pos h1] at h ⊢
      rw [ih intr h]
      simp [legacyYields, List.filterMap_cons, h1]
    · rw [if_neg h1] at h ⊢
      by_cases h2 : m.typ = NLMSG_ERROR
      · rw [if_pos h2] at h
        simp at h
      · rw [if_neg h2] at h ⊢
        by_cases h5 : m.typ ≠ rtyp
        · rw [if_pos h5] at h
          simp at h
        · rw [if_neg h5] at h ⊢
          rw [ih _ h]
          simp [legacyYields, List.filterMap_cons, h1]

theorem legacyDump_all_valid_intr_true {B : Type} (rtyp : Nat)
    (parser : Bytes → B)
    (hrt1 : rtyp ≠ NLMSG_NOOP) (hrt2 : rtyp ≠ NLMSG_ERROR)
    (msgs : List Msg) (hval : ∀ m ∈ msgs, m.typ = rtyp) :
    legacyDump rtyp parser msgs true
      = (msgs.map (fun m => parser m.payload), LTerm.dumpIntr) := by
  induction msgs with
  | nil => rfl
  | cons m rest ih =>
    have hm : m.typ = rtyp := hval m (List.mem_cons_self _ _)
    have ihr := ih (fun x hx => hval x (List.mem_cons_of_mem _ hx))
    simp only [legacyDump, hm, if_neg hrt1, if_neg hrt2, ite_not, if_true,
      Bool.true_or]
    rw [ihr]
    simp

theorem legacyDump_flagged_dumpIntr {B : Type} (rtyp : Nat)
    (parser : Bytes → B)
    (hrt1 : rtyp ≠ NLMSG_NOOP) (hrt2 : rtyp ≠ NLMSG_ERROR)
    (msgs : List Msg) (hval : ∀ m ∈ msgs, m.typ = rtyp)
    (hflag : ∃ m ∈ msgs, m.flags &&& NLM_F_DUMP_INTR ≠ 0) :
    legacyDump rtyp parser msgs false
      = (msgs.map (fun m => parser m.payload), LTerm.dumpIntr) := by
  induction msgs with
  | nil => simp at hflag
  | cons m rest ih =>
    have hm : m.typ = rtyp := hval m (List.mem_cons_self _ _)
    have hvr : ∀ x ∈ rest, x.typ = rtyp :=
      fun x hx => hval x (List.mem_cons_of_mem _ hx)
    simp only [legacyDump, hm, if_neg hrt1, if_neg hrt2, ite_not, if_true,
      Bool.false_or]
    by_cases hf : m.flags &&& NLM_F_DUMP_INTR ≠ 0
    · rw [show decide (m.flags &&& NLM_F_DUMP_INTR ≠ 0) = true from by
        simp [hf]]
      rw [legacyDump_all_valid_intr_true rtyp parser hrt1 hrt2 rest hvr]
      simp
    · rw [show decide (m.flags &&& NLM_F_DUMP_INTR ≠ 0) = false from by
        simp
        omega]
      have hfr : ∃ x ∈ rest, x.flags &&& NLM_F_DUMP_INTR ≠ 0 := by
        obtain ⟨y, hy, hyf⟩ := hflag
        rcases List.mem_cons.mp hy with h | h
        · exact absurd (h ▸ hyf) hf
        · exact ⟨y, h, hyf⟩
      rw [ih hvr hfr]
      simp

/-- C6: considering the receive loops of `_nll_send` and of the legacy
dump driver, started with the latch clear as the dump entry points start
them — first conjunct: if no message of the stream carries
`NLM_F_DUMP_INTR`, `NllDumpInterrupted` is never raised; second
conjunct: whenever the run ends in `NllDumpInterrupted`, every
otherwise-valid message of the whole stream has already been yielded
(the raise happens only after the stream ends, never before); third
conjunct: if all messages are of the expected type and at least one
carries `NLM_F_DUMP_INTR`, the run yields every message and only then
raises `NllDumpInterrupted`; conjuncts four to six: the same three
facts for the legacy driver (`_legacy_nll_get_dump`,
`legacy_core._nll_get_dump`). -/
theorem dump_interrupted_after_stream {B : Type} (rtyp : Nat)
    (parser : Bytes → B) (msgs : List Msg)
    (hrt1 : rtyp ≠ NLMSG_NOOP) (hrt2 : rtyp ≠ NLMSG_ERROR) :
    ((∀ m ∈ msgs, m.flags &&& NLM_F_DUMP_INTR = 0) →
      (nllSend rtyp msgs false).term ≠ Term.dumpIntr) ∧
    ((nllSend rtyp msgs false).term = Term.dumpIntr →
      (nllSend rtyp msgs false).yields = dumpYields msgs) ∧
    ((∀ m ∈ msgs, m.typ = rtyp) →
      (∃ m ∈ msgs, m.flags &&& NLM_F_DUMP_INTR ≠ 0) →
      nllSend rtyp msgs false = ⟨msgs.map Msg.payload, Term.dumpIntr⟩) ∧
    ((∀ m ∈ msgs, m.flags &&& NLM_F_DUMP_INTR = 0) →
      (legacyDump rtyp parser msgs false).2 ≠ LTerm.dumpIntr) ∧
    ((legacyDump rtyp parser msgs false).2 = LTerm.dumpIntr →
      (legacyDump rtyp parser msgs false).1 = legacyYields parser msgs) ∧
    ((∀ m ∈ msgs, m.typ = rtyp) →
      (∃ m ∈ msgs, m.flags &&& NLM_F_DUMP_INTR ≠ 0) →
      legacyDump rtyp parser msgs false
        = (msgs.map (fun m => parser m.payload), LTerm.dumpIntr)) := by
  refine ⟨?_, ?_, ?_, ?_, ?_, ?_⟩
  · intro hflag h
    have := nllSend_no_flag_keeps_intr rtyp msgs hflag false h
    cases this
  · exact nllSend_dumpIntr_yields rtyp msgs false
  · exact fun hval hflag =>
      nllSend_flagged_dumpIntr rtyp hrt1 hrt2 msgs hval hflag
  · intro hflag h
    have := legacyDump_no_flag_keeps_intr rtyp parser msgs hflag false h
    cases this
  · exact legacyDump_dumpIntr_yields rtyp parser msgs false
  · exact fun hval hflag =>
      legacyDump_flagged_dumpIntr rtyp parser hrt1 hrt2 msgs hval hflag

/-- Witness for C6: a concrete two-message stream whose second message
carries `NLM_F_DUMP_INTR` yields both messages and only then raises
`NllDumpInterrupted`, in both drivers; with the flag absent nothing is
raised. -/
theorem dump_interrupted_after_stream_witness :
    (nllSend RTM_NEWROUTE
      [⟨RTM_NEWROUTE, 0, 1, 0, [7]⟩, ⟨RTM_NEWROUTE, 0, 1, 0, [8]⟩]
      false).term ≠ Term.dumpIntr ∧
    nllSend RTM_NEWROUTE
      [⟨RTM_NEWROUTE, 0, 1, 0, [7]⟩, ⟨RTM_NEWROUTE, 16, 1, 0, [8]⟩]
      false = ⟨[[7], [8]], Term.dumpIntr⟩ ∧
    legacyDump RTM_NEWROUTE (fun b => b)
      [⟨RTM_NEWROUTE, 0, 1, 0, [7]⟩, ⟨RTM_NEWROUTE, 16, 1, 0, [8]⟩]
      false = ([[7], [8]], LTerm.dumpIntr) := by
  have h1 := dump_interrupted_after_stream (B := Bytes) RTM_NEWROUTE
    (fun b => b)
    [⟨RTM_NEWROUTE, 0, 1, 0, [7]⟩, ⟨RTM_NEWROUTE, 0, 1, 0, [8]⟩]
    (by decide) (by decide)
  have h2 := dump_interrupted_after_stream (B := Bytes) RTM_NEWROUTE
    (fun b => b)
    [⟨RTM_NEWROUTE, 0, 1, 0, [7]⟩, ⟨RTM_NEWROUTE, 16, 1, 0, [8]⟩]
    (by decide) (by decide)
  refine ⟨h1.1 (by decide), ?_, ?_⟩
  · exact h2.2.2.1 (by decide) ⟨⟨RTM_NEWROUTE, 16, 1, 0, [8]⟩, by decide⟩
  · exact h2.2.2.2.2.2 (by decide) ⟨⟨RTM_NEWROUTE, 16, 1, 0, [8]⟩, by decide⟩

/-! ## Message framer (`_messages`, `core.py` and `legacy_core.py`)

The framer slices each received datagram into netlink messages.  The
`nlmsghdr` layout (pack format `"=LHHLL"`: 32-bit len, 16-bit type,
16-bit flags, 32-bit seq, 32-bit pid, native order, 16 bytes) is
modelled from the spec (§6.1), the generated `classes.py` not being in
the sources.  The input is the sequence of datagrams `recv` returns; an
empty datagram (empty `recv`, or `BlockingIOError` on a non-blocking
socket) ends the iteration. -/

def nlmsgLen (buf : Bytes) : Nat := natFromLE (buf.take 4)

def nlmsgType (buf : Bytes) : Nat := natFromLE ((buf.drop 4).take 2)

def nlmsgFlags (buf : Bytes) : Nat := natFromLE ((buf.drop 6).take 2)

def nlmsgSeq (buf : Bytes) : Nat := natFromLE ((buf.drop 8).take 4)

def nlmsgPid (buf : Bytes) : Nat := natFromLE ((buf.drop 12).take 4)

/-- How the framer's iteration ends: normally (`ok`, on an empty recv or
exhausted input), on `NLMSG_DONE` (`done`), with a `struct.error` from a
short header (`errShort`), or not at all (`hang`, a zero `nlmsg_len`). -/
inductive FrEnd where
  | ok : FrEnd
  | done : FrEnd
  | errShort : FrEnd
  | hang : FrEnd
deriving DecidableEq

/-- The inner `while buf:` loop of `_messages` over one datagram. -/
def framerBuf : Nat → Bytes → List Msg × FrEnd
  | 0, _ => ([], .hang)
  | _ + 1, [] => ([], .ok)
  | fuel + 1, buf =>
    if buf.length < 16 then ([], .errShort)
    else if nlmsgType buf = NLMSG_DONE then ([], .done)
    else
      let tup : Msg := ⟨nlmsgType buf, nlmsgFlags buf, nlmsgSeq buf,
        nlmsgPid buf, pyTake ((nlmsgLen buf : Int) - 16) (buf.drop 16)⟩
      let r := framerBuf fuel (buf.drop (nlmsgLen buf))
      (tup :: r.1, r.2)

/-- The generator `_messages`: read datagrams in turn, stopping at an
empty recv, at `NLMSG_DONE`, or on an error. -/
def framer (fuel : Nat) : List Bytes → List Msg × FrEnd
  | [] => ([], .ok)
  | d :: ds =>
    if d = [] then ([], .ok)
    else
      let r := framerBuf fuel d
      match r.2 with
      | .ok =>
        let r2 := framer fuel ds
        (r.1 ++ r2.1, r2.2)
      | e => (r.1, e)

/-- The function `nll_listen` (`core.py`): for each framed message look
its type up in the caller's parser table — a missing type raises
`NllError` (the boolean marks that) — and yield `(type, parsed)`. -/
def nll_listen {B : Type} (table : Nat → Option (Bytes → B)) :
    List Msg → List (Nat × B) × Bool
  | [] => ([], false)
  | m :: rest =>
    match table m.typ with
    | none => ([], true)
    | some p =>
      let r := nll_listen table rest
      ((m.typ, p m.payload) :: r.1, r.2)

/-- Wire encoding of one netlink message: `nlmsghdr` with
`nlmsg_len = 16 + len(payload)` followed by the payload. -/
def buildMsg (m : Msg) : Bytes :=
  natToLE 4 (16 + m.payload.length) ++ natToLE 2 m.typ ++ natToLE 2 m.flags
    ++ natToLE 4 m.seq ++ natToLE 4 m.pid ++ m.payload

/-- Header fields within the ranges their wire formats carry, and not a
`NLMSG_DONE` terminator. -/
def wfMsg (m : Msg) : Prop :=
  m.typ < 65536 ∧ m.typ ≠ NLMSG_DONE ∧ m.flags < 65536 ∧
  m.seq < 4294967296 ∧ m.pid < 4294967296 ∧
  16 + m.payload.length < 4294967296

theorem getMid (pre mid post : Bytes) (n w : Nat)
    (hn : pre.length = n) (hw : mid.length = w) :
    ((pre ++ (mid ++ post)).drop n).take w = mid := by
  subst hn hw
  rw [List.drop_left, List.take_left]

theorem framerBuf_cons_eq (fuel : Nat) (buf : Bytes) (hne : buf ≠ []) :
    framerBuf (fuel + 1) buf =
      if buf.length < 16 then ([], FrEnd.errShort)
      else if nlmsgType buf = NLMSG_DONE then ([], FrEnd.done)
      else
        ((⟨nlmsgType buf, nlmsgFlags buf, nlmsgSeq buf, nlmsgPid buf,
            pyTake ((nlmsgLen buf : Int) - 16) (buf.drop 16)⟩ : Msg) ::
              (framerBuf fuel (buf.drop (nlmsgLen buf))).1,
          (framerBuf fuel (buf.drop (nlmsgLen buf))).2) := by
  match buf, hne with
  | y :: ys, _ => rfl

theorem framerBuf_build (msgs : List Msg) (dn : Bytes)
    (hwf : ∀ m ∈ msgs, wfMsg m)
    (hdn16 : ¬ dn.length < 16) (hdnD : nlmsgType dn = NLMSG_DONE) :
    ∀ fuel, msgs.length < fuel →
      framerBuf fuel ((msgs.map buildMsg).flatten ++ dn)
        = (msgs, FrEnd.done) := by
  induction msgs with
  | nil =>
    intro fuel hf
    match fuel, hf with
    | f + 1, _ =>
      have hne : dn ≠ [] := by
        intro h
        rw [h] at hdn16
        simp at hdn16
      simp only [List.map_nil, List.flatten_nil, List.nil_append]
      rw [framerBuf_cons_eq f dn hne, if_neg hdn16, if_pos hdnD]
  | cons m ms ih =>
    intro fuel hf
    match fuel, hf with
    | f + 1, hf =>
      obtain ⟨ht65, htD, hf65, hs32, hp32, hl32⟩ :=
        hwf m (List.mem_cons_self _ _)
      have hdata : (((m :: ms).map buildMsg).flatten ++ dn)
          = buildMsg m ++ ((ms.map buildMsg).flatten ++ dn) := by
        simp [List.append_assoc]
      rw [hdata]
      have hblen : (buildMsg m).length = 16 + m.payload.length := by
        simp [buildMsg, natToLE_length]
        omega
      have hne : buildMsg m ++ ((ms.map buildMsg).flatten ++ dn) ≠ [] := by
        intro h
        have := congrArg List.length h
        simp [hblen] at this
      rw [framerBuf_cons_eq f _ hne]
      have hshape4 : buildMsg m ++ ((ms.map buildMsg).flatten ++ dn)
          = natToLE 4 (16 + m.payload.length) ++ (natToLE 2 m.typ
            ++ (natToLE 2 m.flags ++ (natToLE 4 m.seq ++ (natToLE 4 m.pid
            ++ (m.payload ++ ((ms.map buildMsg).flatten ++ dn)))))) := by
        simp [buildMsg, List.append_assoc]
      have hshape6 : buildMsg m ++ ((ms.map buildMsg).flatten ++ dn)
          = (natToLE 4 (16 + m.payload.length) ++ natToLE 2 m.typ)
            ++ (natToLE 2 m.flags ++ (natToLE 4 m.seq ++ (natToLE 4 m.pid
            ++ (m.payload ++ ((ms.map buildMsg).flatten ++ dn))))) := by
        simp [buildMsg, List.append_assoc]
      have hshape8 : buildMsg m ++ ((ms.map buildMsg).flatten ++ dn)
          = (natToLE 4 (16 + m.payload.length) ++ natToLE 2 m.typ
              ++ natToLE 2 m.flags)
            ++ (natToLE 4 m.seq ++ (natToLE 4 m.pid
            ++ (m.payload ++ ((ms.map buildMsg).flatten ++ dn)))) := by
        simp [buildMsg, List.append_assoc]
      have hshape12 : buildMsg m ++ ((ms.map buildMsg).flatten ++ dn)
          = (natToLE 4 (16 + m.payload.length) ++ natToLE 2 m.typ
              ++ natToLE 2 m.flags ++ natToLE 4 m.seq)
            ++ (natToLE 4 m.pid
            ++ (m.payload ++ ((ms.map buildMsg).flatten ++ dn))) := by
        simp [buildMsg, List.append_assoc]
      have hshape16 : buildMsg m ++ ((ms.map buildMsg).flatten ++ dn)
          = (natToLE 4 (16 + m.payload.length) ++ natToLE 2 m.typ
              ++ natToLE 2 m.flags ++ natToLE 4 m.seq ++ natToLE 4 m.pid)
            ++ (m.payload ++ ((ms.map buildMsg).flatten ++ dn)) := by
        simp [buildMsg, List.append_assoc]
      have hLen : nlmsgLen (buildMsg m ++ ((ms.map buildMsg).flatten ++ dn))
          = 16 + m.payload.length := by
        unfold nlmsgLen
        rw [hshape4, List.take_left' (natToLE_length 4 _)]
        exact natFromLE_natToLE 4 _ (by norm_num; omega)
      have hTyp : nlmsgType (buildMsg m ++ ((ms.map buildMsg).flatten ++ dn))
          = m.typ := by
        unfold nlmsgType
        rw [hshape4, getMid _ _ _ 4 2 (natToLE_length 4 _) (natToLE_length 2 _)]
        exact natFromLE_natToLE 2 _ (by norm_num; omega)
      have hFlags : nlmsgFlags (buildMsg m
          ++ ((ms.map buildMsg).flatten ++ dn)) = m.flags := by
        unfold nlmsgFlags
        rw [hshape6, getMid _ _ _ 6 2 (by simp [natToLE_length])
          (natToLE_length 2 _)]
        exact natFromLE_natToLE 2 _ (by norm_num; omega)
      have hSeq : nlmsgSeq (buildMsg m ++ ((ms.map buildMsg).flatten ++ dn))
          = m.seq := by
        unfold nlmsgSeq
        rw [hshape8, getMid _ _ _ 8 4 (by simp [natToLE_length])
          (natToLE_length 4 _)]
        exact natFromLE_natToLE 4 _ (by norm_num; omega)
      have hPid : nlmsgPid (buildMsg m ++ ((ms.map buildMsg).flatten ++ dn))
          = m.pid := by
        unfold nlmsgPid
        rw [hshape12, getMid _ _ _ 12 4 (by simp [natToLE_length])
          (natToLE_length 4 _)]
        exact natFromLE_natToLE 4 _ (by norm_num; omega)
      have hdrop16 : (buildMsg m
          ++ ((ms.map buildMsg).flatten ++ dn)).drop 16
          = m.payload ++ ((ms.map buildMsg).flatten ++ dn) := by
        rw [hshape16]
        exact List.drop_left' (by simp [natToLE_length])
      have hPayload : pyTake
          ((nlmsgLen (buildMsg m ++ ((ms.map buildMsg).flatten ++ dn)) : Int)
            - 16)
          ((buildMsg m ++ ((ms.map buildMsg).flatten ++ dn)).drop 16)
          = m.payload := by
        rw [hLen, hdrop16]
        unfold pyTake
        rw [if_pos (by omega)]
        rw [show ((16 + m.payload.length : Nat) : Int) - 16
          = (m.payload.length : Int) from by omega]
        rw [Int.toNat_natCast, List.take_left' rfl]
      have hAdvance : (buildMsg m
          ++ ((ms.map buildMsg).flatten ++ dn)).drop
            (nlmsgLen (buildMsg m ++ ((ms.map buildMsg).flatten ++ dn)))
          = (ms.map buildMsg).flatten ++ dn := by
        rw [hLen]
        exact List.drop_left' hblen
      have hlong : ¬ (buildMsg m
          ++ ((ms.map buildMsg).flatten ++ dn)).length < 16 := by
        rw [List.length_append, hblen]
        omega
      have hms : ms.length < f := by
        simp only [List.length_cons] at hf
        omega
      rw [if_neg hlong, if_neg (by rw [hTyp]; exact htD)]
      rw [hTyp, hFlags, hSeq, hPid, hPayload, hAdvance]
      rw [ih (fun x hx => hwf x (List.mem_cons_of_mem _ hx)) f hms]

/-- C5 counterexample: a datagram holding one `NLMSG_NOOP` message
followed by `NLMSG_DONE` makes the framer yield a tuple whose type is
`NLMSG_NOOP` — the framer does not skip NOOPs — and the event listener
consuming that tuple fails on it when its parser table has no entry for
the NOOP type (so the listener does observe NOOPs). -/
theorem framer_yields_noop_counterexample :
    framer 3 [[16, 0, 0, 0, 1, 0, 0, 0, 0, 0, 0, 0, 0, 0, 0, 0,
               16, 0, 0, 0, 3, 0, 0, 0, 0, 0, 0, 0, 0, 0, 0, 0]]
      = ([⟨NLMSG_NOOP, 0, 0, 0, []⟩], FrEnd.done) ∧
    nll_listen (B := Bytes) (fun _ => none) [⟨NLMSG_NOOP, 0, 0, 0, []⟩]
      = ([], true) := by
  constructor
  · decide
  · rfl

/-- C5 (amended): the framer yields one `(type, flags, seq, pid,
payload)` tuple for every message before the terminator — including
`NLMSG_NOOP` messages, which it does not skip (NOOP skipping is done by
the dump drivers, not by the framer, and the event listener does observe
NOOPs) — and it stops permanently at `NLMSG_DONE` or when `recv`
returns empty. -/
theorem framer_messages (msgs : List Msg) (dn : Bytes) (ds : List Bytes)
    (hwf : ∀ m ∈ msgs, wfMsg m)
    (hdn16 : ¬ dn.length < 16) (hdnD : nlmsgType dn = NLMSG_DONE) :
    framer (msgs.length + 1) [(msgs.map buildMsg).flatten ++ dn]
        = (msgs, FrEnd.done) ∧
    framer (msgs.length + 1) ([] :: ds) = ([], FrEnd.ok) := by
  constructor
  · have hne : (msgs.map buildMsg).flatten ++ dn ≠ [] := by
      intro h
      rcases List.append_eq_nil.mp h with ⟨-, h2⟩
      rw [h2] at hdn16
      simp at hdn16
    simp only [framer, if_neg hne]
    rw [framerBuf_build msgs dn hwf hdn16 hdnD _ (Nat.lt_succ_self _)]
  · rfl

/-- Witness for C5 (amended): a datagram holding a NOOP message and a
`RTM_NEWLINK` message before the DONE terminator is framed into exactly
those two tuples — the NOOP included — and an empty recv stops the
framer. -/
theorem framer_messages_witness :
    framer 3 [([⟨NLMSG_NOOP, 0, 0, 0, []⟩,
        ⟨RTM_NEWLINK, 0, 1, 0, [9]⟩].map buildMsg).flatten
      ++ [16, 0, 0, 0, 3, 0, 0, 0, 0, 0, 0, 0, 0, 0, 0, 0]]
      = ([⟨NLMSG_NOOP, 0, 0, 0, []⟩, ⟨RTM_NEWLINK, 0, 1, 0, [9]⟩],
         FrEnd.done) ∧
    framer 3 ([] :: [[1, 2, 3]]) = ([], FrEnd.ok) :=
  framer_messages [⟨NLMSG_NOOP, 0, 0, 0, []⟩, ⟨RTM_NEWLINK, 0, 1, 0, [9]⟩]
    [16, 0, 0, 0, 3, 0, 0, 0, 0, 0, 0, 0, 0, 0, 0, 0] [[1, 2, 3]]
    (by intro m hm; fin_cases hm <;>
      exact ⟨by decide, by decide, by decide, by decide, by decide, by decide⟩)
    (by decide) (by decide)

/-! ## NLA tree decode (`_NlaScalar`, `_NlaNest`, `NlaUnion`, `core.py`)

The class hierarchy is embedded as one node type.  A scalar carries the
optional serialize value `val` (when set and no explicit callback is
given, the callback defaults to `nll_assert(lambda x: x == val)`, which
raises `StopParsing` on mismatch — `nll_assert` is imported from
`datatypes` but absent from the checked-in sources; modelled from the
spec §3.2 and the docstring of `_NlaScalar`), an optional callback (a
predicate; `false` models raising `StopParsing`) and an optional setter.
A union carries the resolver key function and its `attrs` table (the
union's own unused tag is omitted).  The rendering of `NlaIp6.from_bytes`
(`str(IPv6Address(n))`, RFC 5952 compression) is kept abstract as the
parameter `ip6Str`; no claim depends on it. -/

/-- A decoded scalar value: a Python `int` or `str`. -/
inductive SVal where
  | i : Int → SVal
  | s : String → SVal
deriving DecidableEq

/-- Which `_NlaScalar` subclass a scalar node is: `NlaStr`, `_NlaInt`
(with its byte order; `int.from_bytes` decodes unsigned for every
subclass), `NlaIp4`, `NlaIp6`, `NlaMac`. -/
inductive SKind where
  | kstr : SKind
  | kint : Bool → SKind
  | kip4 : SKind
  | kip6 : SKind
  | kmac : SKind
deriving DecidableEq

/-- Python `bytes.rstrip(b"\x00")`. -/
def rstrip0 (bs : Bytes) : Bytes := (bs.reverse.dropWhile (· = 0)).reverse

/-- `bytes.decode("ascii")` after stripping NULs; a byte above 127 is a
`UnicodeDecodeError`. -/
def strFromBytes (bs : Bytes) : Option String :=
  if ∀ b ∈ rstrip0 bs, b < 128 then
    some (String.mk ((rstrip0 bs).map Char.ofNat))
  else none

/-- `str(IPv4Address(n))`: dotted quad. -/
def ip4Render (n : Nat) : String :=
  toString (n / 16777216 % 256) ++ "." ++ toString (n / 65536 % 256) ++ "."
    ++ toString (n / 256 % 256) ++ "." ++ toString (n % 256)

/-- One lowercase hex digit: code point 48 is the digit zero, 97 the
letter a. -/
def hexChar (n : Nat) : Char :=
  if n < 10 then Char.ofNat (48 + n) else Char.ofNat (87 + n)

/-- Python `f"{i:02x}"` for a byte value. -/
def byteHex (n : Nat) : String := String.mk [hexChar (n / 16 % 16), hexChar (n % 16)]

/-- The colon-joined hex rendering of `NlaMac.from_bytes`. -/
def macRender (bs : Bytes) : String := String.intercalate ":" (bs.map byteHex)

/-- The `from_bytes` conversion of each scalar kind; `none` models an
exception escaping the decode (`UnicodeDecodeError`,
`AddressValueError`). -/
def svalOfBytes (ip6Str : Bytes → String) : SKind → Bytes → Option SVal
  | .kstr, bs => (strFromBytes bs).map SVal.s
  | .kint be, bs => some (SVal.i (if be then natFromBE bs else natFromLE bs))
  | .kip4, bs =>
    if natFromBE bs < 4294967296 then some (SVal.s (ip4Render (natFromBE bs)))
    else none
  | .kip6, bs =>
    if natFromBE bs < 2 ^ 128 then some (SVal.s (ip6Str bs)) else none
  | .kmac, bs =>
    some (SVal.s (if bs.length = 6 then macRender bs else ""))

/-- One node of the NLA tree. -/
inductive NlaNode (A : Type) where
  | scalar (tag : Nat) (required : Bool) (kind : SKind) (val : Option SVal)
      (callback : Option (SVal → Bool)) (setter : Option (A → SVal → A))
  | nest (tag : Nat) (required : Bool) (children : List (NlaNode A))
  | union (required : Bool) (key : A → Option String)
      (attrs : List (String × NlaNode A))

/-- The `tag` attribute of a node (a union's resolved child supplies the
tag used for the lookup; the union's own tag is never consulted). -/
def nlaTag {A : Type} : NlaNode A → Nat
  | .scalar tag _ _ _ _ _ => tag
  | .nest tag _ _ => tag
  | .union _ _ _ => 0

/-- The `required` attribute of a node. -/
def nlaRequired {A : Type} : NlaNode A → Bool
  | .scalar _ r _ _ _ _ => r
  | .nest _ r _ => r
  | .union r _ _ => r

/-- Outcome of a decode step: `stop` models `StopParsing`, `err` any
other exception, `hang` fuel exhaustion. -/
inductive PRes (A : Type) where
  | ok : A → PRes A
  | stop : PRes A
  | err : PRes A
  | hang : PRes A
deriving DecidableEq

mutual

/-- Decode dispatch of the node classes: `_NlaScalar.parse` (no setter —
return the accumulator untouched; otherwise convert, run the callback,
which may raise `StopParsing`, then run the setter), `_NlaNest.parse`
(collect the TLVs into a tag-keyed dict, then process the children in
declaration order), and `NlaUnion.parse` (a bare
`NotImplementedError`). -/
def nlaParse {A : Type} (ip6Str : Bytes → String) :
    Nat → NlaNode A → A → Bytes → PRes A
  | 0, _, _, _ => .hang
  | _ + 1, .scalar _ _ kind val cb setter, accum, data =>
    match setter with
    | none => .ok accum
    | some set =>
      match svalOfBytes ip6Str kind data with
      | none => .err
      | some parsed =>
        match cb with
        | some f => if f parsed then .ok (set accum parsed) else .stop
        | none =>
          match val with
          | some v => if parsed = v then .ok (set accum parsed) else .stop
          | none => .ok (set accum parsed)
  | fuel + 1, .nest _ _ children, accum, data =>
    match collectAttrs (data.length + 1) [] data with
    | .ok attrs => nlaChildren ip6Str fuel children accum attrs
    | .err => .err
    | .hang => .hang
  | _ + 1, .union _ _ _, _, _ => .err

/-- The `for nla in self.nlas` loop of `_NlaNest.parse`: the children
are processed in the order they were declared. -/
def nlaChildren {A : Type} (ip6Str : Bytes → String) :
    Nat → List (NlaNode A) → A → List (Nat × Bytes) → PRes A
  | 0, _, _, _ => .hang
  | _ + 1, [], accum, _ => .ok accum
  | fuel + 1, nla :: rest, accum, attrs =>
    match nlaChild ip6Str fuel nla accum attrs with
    | .ok a => nlaChildren ip6Str fuel rest a attrs
    | .stop => .stop
    | .err => .err
    | .hang => .hang

/-- One iteration of that loop: resolve a union through its key function
and `attrs` table (a failed resolution is the `KeyError` the source
catches: `StopParsing` when the node is required, skip otherwise), look
the node's tag up in the collected dict (same `KeyError` handling, on
the resolved node), and parse the payload. -/
def nlaChild {A : Type} (ip6Str : Bytes → String) :
    Nat → NlaNode A → A → List (Nat × Bytes) → PRes A
  | 0, _, _, _ => .hang
  | fuel + 1, .union req key uattrs, accum, attrs =>
    (match key accum with
     | none => if req then .stop else .ok accum
     | some k =>
       match dlookup uattrs k with
       | none => if req then .stop else .ok accum
       | some child =>
         match dlookup attrs (nlaTag child) with
         | none => if nlaRequired child then .stop else .ok accum
         | some payload => nlaParse ip6Str fuel child accum payload)
  | fuel + 1, nla, accum, attrs =>
    match dlookup attrs (nlaTag nla) with
    | none => if nlaRequired nla then .stop else .ok accum
    | some payload => nlaParse ip6Str fuel nla accum payload

end

/-- A filter child in the spec's sense: a scalar whose serialize value
is set. -/
def isFilterScalar {A : Type} : NlaNode A → Bool
  | .scalar _ _ _ (some _) _ _ => true
  | _ => false

/-- A context-carrying child in the spec's sense: a nested or union
node. -/
def isContextNode {A : Type} : NlaNode A → Bool
  | .nest _ _ _ => true
  | .union _ _ _ => true
  | _ => false

/-- A remaining scalar child in the spec's sense. -/
def isPlainScalar {A : Type} : NlaNode A → Bool
  | .scalar _ _ _ none _ _ => true
  | _ => false

/-- Modelled from the spec (§3.4): the reordering of children the claim
describes — filter children first, context-carrying nested children
next, all other scalar children last.  Defined only to compare the
source's declaration-order processing against the spec's words. -/
def specOrderChildren {A : Type} (children : List (NlaNode A)) :
    List (NlaNode A) :=
  children.filter isFilterScalar ++ children.filter isContextNode
    ++ children.filter isPlainScalar

/-- Modelled from the spec (§3.4): nested-list decode with the claim's
child reordering in place of the source's declaration order. -/
def nlaParseSpecOrder {A : Type} (ip6Str : Bytes → String) (fuel : Nat)
    (children : List (NlaNode A)) (accum : A) (data : Bytes) : PRes A :=
  match collectAttrs (data.length + 1) [] data with
  | .ok attrs => nlaChildren ip6Str fuel (specOrderChildren children) accum attrs
  | .err => .err
  | .hang => .hang

/-- A scalar without a filter value whose setter logs the string
`plain`. -/
def exPlainNode : NlaNode (List String) :=
  NlaNode.scalar 1 false (SKind.kint false) none none
    (some (fun a _ => a ++ ["plain"]))

/-- A filter scalar (serialize value set, so the default `nll_assert`
callback applies) whose setter logs the string `filter`. -/
def exFilterNode : NlaNode (List String) :=
  NlaNode.scalar 2 false (SKind.kint false) (some (SVal.i 5)) none
    (some (fun a _ => a ++ ["filter"]))

/-- Wire bytes carrying the two TLVs (tag 1 payload `[9]`, tag 2 payload
`[5]`) in tag order. -/
def exNestWire : Bytes := [5, 0, 1, 0, 9, 0, 0, 0, 5, 0, 2, 0, 5, 0, 0, 0]

/-- C4 counterexample: a nested list declared `[plain, filter]` is
decoded in declaration order — the plain scalar's setter runs before the
filter's — whereas the claim's reordering (filters first) would run them
the other way; the two orders produce different accumulators on the same
wire bytes, so the claimed reordering does not happen. -/
theorem nest_parse_order_counterexample :
    nlaParse (fun _ => "") 5
      (NlaNode.nest 0 false [exPlainNode, exFilterNode])
      ([] : List String) exNestWire = PRes.ok ["plain", "filter"] ∧
    nlaParseSpecOrder (fun _ => "") 4 [exPlainNode, exFilterNode]
      ([] : List String) exNestWire = PRes.ok ["filter", "plain"] ∧
    nlaParse (fun _ => "") 5
      (NlaNode.nest 0 false [exPlainNode, exFilterNode])
      ([] : List String) exNestWire
      ≠ nlaParseSpecOrder (fun _ => "") 4 [exPlainNode, exFilterNode]
        ([] : List String) exNestWire := by
  refine ⟨?_, ?_, ?_⟩ <;> decide

/-- Wire encoding of one TLV: `rtattr{len=4+|v|, type=k}`, payload,
zero padding to the next multiple of four. -/
def encodeTlv (k : Nat) (v : Bytes) : Bytes :=
  natToLE 2 (4 + v.length) ++ natToLE 2 k ++ v
    ++ List.replicate (align4 (4 + v.length) - (4 + v.length)) 0

/-- Wire encoding of a TLV list. -/
def encodeTlvs (tlvs : List (Nat × Bytes)) : Bytes :=
  (tlvs.map (fun kv => encodeTlv kv.1 kv.2)).flatten

theorem encodeTlv_length (k : Nat) (v : Bytes) :
    (encodeTlv k v).length = align4 (4 + v.length) := by
  have := align4_ge (4 + v.length)
  simp [encodeTlv, natToLE_length]
  omega

theorem collectAttrs_encodeTlvs (tlvs : List (Nat × Bytes))
    (hwf : ∀ kv ∈ tlvs, 4 + (kv.2 : Bytes).length < 65536 ∧ kv.1 < 65536) :
    ∀ (fuel : Nat) (d : List (Nat × Bytes)),
      (encodeTlvs tlvs).length < fuel →
      collectAttrs fuel d (encodeTlvs tlvs)
        = Res.ok (tlvs.foldl (fun d kv => dset d kv.1 kv.2) d) := by
  induction tlvs with
  | nil =>
    intro fuel d hf
    match fuel, hf with
    | f + 1, _ => rfl
  | cons kv rest ih =>
    intro fuel d hf
    obtain ⟨hlen16, hk16⟩ := hwf kv (List.mem_cons_self _ _)
    have hdata : encodeTlvs (kv :: rest)
        = encodeTlv kv.1 kv.2 ++ encodeTlvs rest := by
      simp [encodeTlvs]
    rw [hdata] at hf ⊢
    have hel := encodeTlv_length kv.1 kv.2
    have hge := align4_ge (4 + kv.2.length)
    match fuel, hf with
    | f + 1, hf =>
      have hne : encodeTlv kv.1 kv.2 ++ encodeTlvs rest ≠ [] := by
        intro h
        rcases List.append_eq_nil.mp h with ⟨h1, -⟩
        have := congrArg List.length h1
        rw [hel] at this
        simp at this
        omega
      have hlong : ¬ (encodeTlv kv.1 kv.2 ++ encodeTlvs rest).length < 4 := by
        rw [List.length_append, hel]
        unfold align4
        omega
      have hshape2 : encodeTlv kv.1 kv.2 ++ encodeTlvs rest
          = natToLE 2 (4 + kv.2.length) ++ (natToLE 2 kv.1 ++ (kv.2
            ++ (List.replicate (align4 (4 + kv.2.length) - (4 + kv.2.length)) 0
              ++ encodeTlvs rest))) := by
        simp [encodeTlv, List.append_assoc]
      have hshape4 : encodeTlv kv.1 kv.2 ++ encodeTlvs rest
          = (natToLE 2 (4 + kv.2.length) ++ natToLE 2 kv.1) ++ (kv.2
            ++ (List.replicate (align4 (4 + kv.2.length) - (4 + kv.2.length)) 0
              ++ encodeTlvs rest)) := by
        simp [encodeTlv, List.append_assoc]
      have hLen : rtaLen (encodeTlv kv.1 kv.2 ++ encodeTlvs rest)
          = 4 + kv.2.length := by
        unfold rtaLen
        rw [hshape2, List.take_left' (natToLE_length 2 _)]
        exact natFromLE_natToLE 2 _
          (by simp only [show (256 : Nat) ^ 2 = 65536 from by norm_num]; omega)
      have hTyp : rtaType (encodeTlv kv.1 kv.2 ++ encodeTlvs rest) = kv.1 := by
        unfold rtaType
        rw [hshape2, getMid _ _ _ 2 2 (natToLE_length 2 _) (natToLE_length 2 _)]
        exact natFromLE_natToLE 2 _
          (by simp only [show (256 : Nat) ^ 2 = 65536 from by norm_num]; omega)
      have hdrop4 : (encodeTlv kv.1 kv.2 ++ encodeTlvs rest).drop 4
          = kv.2 ++ (List.replicate (align4 (4 + kv.2.length)
              - (4 + kv.2.length)) 0 ++ encodeTlvs rest) := by
        rw [hshape4]
        exact List.drop_left' (by simp [natToLE_length])
      have hPayload : rtaPayload (encodeTlv kv.1 kv.2 ++ encodeTlvs rest)
          = kv.2 := by
        unfold rtaPayload pyTake
        rw [hLen, hdrop4, if_pos (by omega)]
        rw [show ((4 + kv.2.length : Nat) : Int) - 4
          = (kv.2.length : Int) from by omega]
        rw [Int.toNat_natCast, List.take_left' rfl]
      have hAdvance : (encodeTlv kv.1 kv.2 ++ encodeTlvs rest).drop
          (align4 (rtaLen (encodeTlv kv.1 kv.2 ++ encodeTlvs rest)))
          = encodeTlvs rest := by
        rw [hLen]
        exact List.drop_left' hel
      have hcons : ∃ y ys, encodeTlv kv.1 kv.2 ++ encodeTlvs rest
          = y :: ys := by
        match h : encodeTlv kv.1 kv.2 ++ encodeTlvs rest with
        | [] => exact absurd h hne
        | y :: ys => exact ⟨y, ys, rfl⟩
      obtain ⟨y, ys, hy⟩ := hcons
      rw [hy] at hlong hTyp hPayload hAdvance ⊢
      show collectAttrs (f + 1) d (y :: ys) = _
      rw [show collectAttrs (f + 1) d (y :: ys)
          = if (y :: ys).length < 4 then Res.err
            else collectAttrs f (dset d (rtaType (y :: ys))
                (rtaPayload (y :: ys)))
              ((y :: ys).drop (align4 (rtaLen (y :: ys)))) from rfl]
      rw [if_neg hlong, hTyp, hPayload, hAdvance]
      rw [ih (fun x hx => hwf x (List.mem_cons_of_mem _ hx)) f
        (dset d kv.1 kv.2) (by
          rw [hy] at hf
          have : (y :: ys).length = align4 (4 + kv.2.length)
              + (encodeTlvs rest).length := by
            rw [← hy, List.length_append, hel]
          unfold align4 at this
          omega)]
      simp

theorem dlookup_dset {K V : Type} [DecidableEq K]
    (d : List (K × V)) (k : K) (v : V) (q : K) :
    dlookup (dset d k v) q = if q = k then some v else dlookup d q := by
  induction d with
  | nil =>
    show (if k = q then some v else none) = if q = k then some v else none
    by_cases h : k = q
    · rw [if_pos h, if_pos h.symm]
    · rw [if_neg h, if_neg (fun hh => h hh.symm)]
  | cons hd tl ih =>
    obtain ⟨a, b⟩ := hd
    show dlookup (if a = k then (a, v) :: tl else (a, b) :: dset tl k v) q = _
    by_cases hk : a = k
    · subst hk
      rw [if_pos rfl]
      show (if a = q then some v else dlookup tl q) = _
      by_cases hq : a = q
      · rw [if_pos hq, if_pos hq.symm]
      · rw [if_neg hq, if_neg (fun hh => hq hh.symm)]
        show _ = if a = q then some b else dlookup tl q
        rw [if_neg hq]
    · rw [if_neg hk]
      show (if a = q then some b else dlookup (dset tl k v) q) = _
      by_cases hq : a = q
      · rw [if_pos hq, if_neg (fun hh => hk (hq.trans hh))]
        show _ = if a = q then some b else dlookup tl q
        rw [if_pos hq]
      · rw [if_neg hq, ih]
        by_cases hqk : q = k
        · rw [if_pos hqk, if_pos hqk]
        · rw [if_neg hqk, if_neg hqk]
          show _ = if a = q then some b else dlookup tl q
          rw [if_neg hq]

theorem fold_dset_pointwise {K V : Type} [DecidableEq K]
    (l : List (K × V)) :
    ∀ (d1 d2 : List (K × V)),
      (∀ q, dlookup d1 q = dlookup d2 q) →
      ∀ q, dlookup (l.foldl (fun d kv => dset d kv.1 kv.2) d1) q
        = dlookup (l.foldl (fun d kv => dset d kv.1 kv.2) d2) q := by
  induction l with
  | nil => intro d1 d2 h q; exact h q
  | cons kv rest ih =>
    intro d1 d2 h q
    simp only [List.foldl_cons]
    exact ih (dset d1 kv.1 kv.2) (dset d2 kv.1 kv.2)
      (fun r => by rw [dlookup_dset, dlookup_dset, h r]) q

theorem fold_dset_perm {K V : Type} [DecidableEq K]
    (tlvs1 tlvs2 : List (K × V)) (p : tlvs1.Perm tlvs2)
    (hnodup : (tlvs1.map Prod.fst).Nodup) :
    ∀ (d : List (K × V)) (q : K),
      dlookup (tlvs1.foldl (fun d kv => dset d kv.1 kv.2) d) q
        = dlookup (tlvs2.foldl (fun d kv => dset d kv.1 kv.2) d) q := by
  induction p with
  | nil => intro d q; rfl
  | cons x p ih =>
    intro d q
    simp only [List.map_cons, List.nodup_cons] at hnodup
    simp only [List.foldl_cons]
    exact ih hnodup.2 (dset d x.1 x.2) q
  | swap x y l =>
    intro d q
    simp only [List.map_cons, List.nodup_cons, List.mem_cons] at hnodup
    have hxy : y.1 ≠ x.1 := fun h => hnodup.1 (Or.inl h)
    simp only [List.foldl_cons]
    exact fold_dset_pointwise l _ _ (fun r => by
      rw [dlookup_dset, dlookup_dset, dlookup_dset, dlookup_dset]
      by_cases h1 : r = x.1
      · by_cases h2 : r = y.1
        · exact absurd (h2.symm.trans h1) hxy
        · simp [h1, h2, Ne.symm hxy]
      · by_cases h2 : r = y.1
        · simp [h1, h2, hxy]
        · simp [h1, h2]) q
  | trans p1 p2 ih1 ih2 =>
    intro d q
    rw [ih1 hnodup d q]
    exact ih2 ((p1.map Prod.fst).nodup_iff.mp hnodup) d q

theorem nlaChild_congr {A : Type} (ip6Str : Bytes → String) (fuel : Nat)
    (nla : NlaNode A) (accum : A) (attrs1 attrs2 : List (Nat × Bytes))
    (h : ∀ q, dlookup attrs1 q = dlookup attrs2 q) :
    nlaChild ip6Str fuel nla accum attrs1
      = nlaChild ip6Str fuel nla accum attrs2 := by
  match fuel with
  | 0 => rfl
  | f + 1 =>
    cases nla with
    | scalar tag req kind val cb setter =>
      show (match dlookup attrs1 tag with
        | none => _
        | some payload => _) = _
      rw [h tag]
      rfl
    | nest tag req children =>
      show (match dlookup attrs1 tag with
        | none => _
        | some payload => _) = _
      rw [h tag]
      rfl
    | union req key uattrs =>
      simp only [nlaChild]
      cases hk : key accum with
      | none => rfl
      | some k =>
        dsimp only
        cases hu : dlookup uattrs k with
        | none => rfl
        | some child =>
          dsimp only
          rw [h (nlaTag child)]

theorem nlaChildren_congr {A : Type} (ip6Str : Bytes → String) :
    ∀ (fuel : Nat) (children : List (NlaNode A)) (accum : A)
      (attrs1 attrs2 : List (Nat × Bytes)),
      (∀ q, dlookup attrs1 q = dlookup attrs2 q) →
      nlaChildren ip6Str fuel children accum attrs1
        = nlaChildren ip6Str fuel children accum attrs2 := by
  intro fuel
  induction fuel with
  | zero => intro children accum a1 a2 h; rfl
  | succ f ih =>
    intro children accum a1 a2 h
    cases children with
    | nil => rfl
    | cons nla rest =>
      simp only [nlaChildren]
      rw [nlaChild_congr ip6Str f nla accum a1 a2 h]
      cases hc : nlaChild ip6Str f nla accum a2 with
      | ok a => exact ih rest a a1 a2 h
      | stop => rfl
      | err => rfl
      | hang => rfl

/-- C4 (amended): within a nested attribute list, `_NlaNest.parse` first
collects the wire TLVs into a tag-keyed dict and then processes the
children in node-declaration order — not reordered into
filters/nested/scalars — so for TLV lists with distinct tags the decode
result is independent of the order in which the TLVs appeared on the
wire; a union child's resolver sees accumulator state from exactly the
siblings declared before it, whatever the kernel's transmission order. -/
theorem nest_parse_wire_order_independent {A : Type}
    (ip6Str : Bytes → String) (fuel : Nat) (tag : Nat) (req : Bool)
    (children : List (NlaNode A)) (accum : A)
    (tlvs1 tlvs2 : List (Nat × Bytes)) (p : tlvs1.Perm tlvs2)
    (hnodup : (tlvs1.map Prod.fst).Nodup)
    (hwf : ∀ kv ∈ tlvs1, 4 + (kv.2 : Bytes).length < 65536 ∧ kv.1 < 65536) :
    nlaParse ip6Str (fuel + 1) (NlaNode.nest tag req children) accum
        (encodeTlvs tlvs1)
      = nlaParse ip6Str (fuel + 1) (NlaNode.nest tag req children) accum
        (encodeTlvs tlvs2) := by
  have hwf2 : ∀ kv ∈ tlvs2, 4 + (kv.2 : Bytes).length < 65536
      ∧ kv.1 < 65536 := fun kv hkv => hwf kv (p.symm.subset hkv)
  simp only [nlaParse]
  rw [collectAttrs_encodeTlvs tlvs1 hwf _ [] (Nat.lt_succ_self _),
    collectAttrs_encodeTlvs tlvs2 hwf2 _ [] (Nat.lt_succ_self _)]
  exact nlaChildren_congr ip6Str fuel children accum _ _
    (fold_dset_perm tlvs1 tlvs2 p hnodup [])

/-- Witness for C4 (amended): the two TLVs of the counterexample nest,
delivered in either wire order, decode to the same accumulator. -/
theorem nest_parse_wire_order_independent_witness :
    nlaParse (fun _ => "") 5
      (NlaNode.nest 0 false [exPlainNode, exFilterNode]) ([] : List String)
      (encodeTlvs [(1, [9]), (2, [5])])
    = nlaParse (fun _ => "") 5
      (NlaNode.nest 0 false [exPlainNode, exFilterNode]) ([] : List String)
      (encodeTlvs [(2, [5]), (1, [9])]) :=
  nest_parse_wire_order_independent (fun _ => "") 4 0 false
    [exPlainNode, exFilterNode] [] [(1, [9]), (2, [5])] [(2, [5]), (1, [9])]
    (List.Perm.swap (2, [5]) (1, [9]) [])
    (by decide) (by intro kv hkv; fin_cases hkv <;> exact ⟨by decide, by decide⟩)

/-- C8: for every attribute tag and payload, a successfully encoded
attribute has total length divisible by 4, its `rta_len` field (the
first two bytes, native 16-bit) decodes to `4 + len(payload)` — the
unpadded length — and the bytes appended after header and payload to
reach the next multiple of 4 are all zero. -/
theorem pack_attr_padding (tag : Nat) (val : Bytes) (out : Bytes)
    (h : pack_attr tag val = some out) :
    out.length % 4 = 0 ∧
    natFromLE (out.take 2) = 4 + val.length ∧
    out.drop (4 + val.length) =
      List.replicate (align4 (4 + val.length) - (4 + val.length)) 0 := by
  unfold pack_attr rtattr_bytes at h
  by_cases hr : 2 + 2 + val.length < 65536 ∧ tag < 65536
  · simp only [hr, if_pos, Option.map_some] at h
    have hout : out = ljust ((natToLE 2 (2 + 2 + val.length) ++ natToLE 2 tag)
        ++ val) (align4 (2 + 2 + val.length)) := by
      cases h; rfl
    subst hout
    unfold ljust
    have hlen2 : (natToLE 2 (2 + 2 + val.length)).length = 2 :=
      natToLE_length 2 _
    have hlen2' : (natToLE 2 tag).length = 2 := natToLE_length 2 _
    have hcore : ((natToLE 2 (2 + 2 + val.length) ++ natToLE 2 tag)
        ++ val).length = 4 + val.length := by
      simp [hlen2, hlen2']; omega
    have hge := align4_ge (2 + 2 + val.length)
    refine ⟨?_, ?_, ?_⟩
    · simp only [List.length_append, List.length_replicate, hcore]
      have h4 : (4 : Nat) + val.length = 2 + 2 + val.length := by omega
      rw [h4]
      have : 2 + 2 + val.length + (align4 (2 + 2 + val.length)
          - (2 + 2 + val.length)) = align4 (2 + 2 + val.length) := by omega
      rw [this]
      exact align4_mod _
    · rw [List.append_assoc, List.append_assoc, List.take_left' hlen2]
      exact natFromLE_natToLE 2 _
        (by simp only [show (256 : Nat) ^ 2 = 65536 from by norm_num]; omega)
    · rw [List.drop_left' hcore, hcore]
  · simp [hr] at h

/-- Witness for C8: the concrete attribute `tag = 3`, payload `[7, 8, 9]`
encodes to eight bytes with `rta_len = 7` and one zero pad byte. -/
theorem pack_attr_padding_witness :
    ([7, 0, 3, 0, 7, 8, 9, 0] : Bytes).length % 4 = 0 ∧
    natFromLE (([7, 0, 3, 0, 7, 8, 9, 0] : Bytes).take 2)
      = 4 + ([7, 8, 9] : Bytes).length ∧
    ([7, 0, 3, 0, 7, 8, 9, 0] : Bytes).drop (4 + ([7, 8, 9] : Bytes).length)
      = List.replicate (align4 (4 + ([7, 8, 9] : Bytes).length)
          - (4 + ([7, 8, 9] : Bytes).length)) 0 :=
  pack_attr_padding 3 [7, 8, 9] [7, 0, 3, 0, 7, 8, 9, 0] (by decide)

end Netlinklib
